import Mathlib

/-!
Verification development for the SymPy-based CAS engine `casEngine.py` of the
Math-App repository.  The Python source is shallowly embedded: the global
session state (`_variables`, `_functions`, `_symbols_cache`) becomes an
explicit `CasState` record threaded through the evaluation functions,
exceptions become `Except String`, and the SymPy expression objects become the
inductive type `Expr` below.  SymPy library primitives that the engine calls
(`latex`, `pretty`, `N`, `simplify`, `parse_expr`, `integrate`) are modelled
as total Lean functions over `Expr`; the engine's own logic (dependency
resolution, cycle detection, dispatch, assignment handling, matrix parsing,
result packaging) is translated statement by statement from the source.
-/

namespace CasEngine

/-- Model of a SymPy expression as used by the engine.  Matrices are carried
row-major as `matE rows cols entries`; `integralD v lo hi body` models the
value produced by `integrate(body, (Symbol v, lo, hi))`, recording the chosen
integration variable; `fnHead` models a bare (unapplied) function object and
`appFn` an `AppliedUndef` application. -/
inductive Expr where
  | intE : Int → Expr
  | floatE : String → Expr
  | sym : String → Expr
  | cpi : Expr
  | cE : Expr
  | cI : Expr
  | cOo : Expr
  | boolE : Bool → Expr
  | add : Expr → Expr → Expr
  | mul : Expr → Expr → Expr
  | powE : Expr → Expr → Expr
  | eqE : Expr → Expr → Expr
  | fnHead : String → Expr
  | appFn : String → List Expr → Expr
  | matE : Nat → Nat → List Expr → Expr
  | integralD : String → Expr → Expr → Expr → Expr

namespace Expr

mutual

/-- `str(sym)` collection over an expression: the free symbol names, in
left-to-right order, possibly with repetitions (SymPy's `free_symbols` is a
set; call sites deduplicate). -/
def freeSymsRaw : Expr → List String
  | intE _ => []
  | floatE _ => []
  | sym s => [s]
  | cpi => []
  | cE => []
  | cI => []
  | cOo => []
  | boolE _ => []
  | add a b => freeSymsRaw a ++ freeSymsRaw b
  | mul a b => freeSymsRaw a ++ freeSymsRaw b
  | powE a b => freeSymsRaw a ++ freeSymsRaw b
  | eqE a b => freeSymsRaw a ++ freeSymsRaw b
  | fnHead _ => []
  | appFn _ args => freeSymsRawL args
  | matE _ _ es => freeSymsRawL es
  | integralD v lo hi body =>
      freeSymsRaw lo ++ freeSymsRaw hi ++ (freeSymsRaw body).filter (· ≠ v)

/-- Free symbol names of a list of expressions. -/
def freeSymsRawL : List Expr → List String
  | [] => []
  | e :: es => freeSymsRaw e ++ freeSymsRawL es

end

mutual

/-- Structural equality test on expressions (model of SymPy `==`). -/
def beqE : Expr → Expr → Bool
  | intE a, intE b => a == b
  | floatE a, floatE b => a == b
  | sym a, sym b => a == b
  | cpi, cpi => true
  | cE, cE => true
  | cI, cI => true
  | cOo, cOo => true
  | boolE a, boolE b => a == b
  | add a b, add c d => beqE a c && beqE b d
  | mul a b, mul c d => beqE a c && beqE b d
  | powE a b, powE c d => beqE a c && beqE b d
  | eqE a b, eqE c d => beqE a c && beqE b d
  | fnHead a, fnHead b => a == b
  | appFn f a, appFn g b => f == g && beqEL a b
  | matE r c a, matE r' c' b => r == r' && c == c' && beqEL a b
  | integralD v lo hi e, integralD v' lo' hi' e' =>
      v == v' && beqE lo lo' && beqE hi hi' && beqE e e'
  | _, _ => false

/-- Structural equality test on lists of expressions. -/
def beqEL : List Expr → List Expr → Bool
  | [], [] => true
  | e :: es, f :: fs => beqE e f && beqEL es fs
  | _, _ => false

end

end Expr

/-- Deduplicated free-symbol names (model of iterating `expr.free_symbols`). -/
def freeNames (e : Expr) : List String := (Expr.freeSymsRaw e).eraseDups

namespace Expr

mutual

/-- Simultaneous substitution of symbols by name (model of `expr.subs(dict)`
where the keys are `Symbol` objects).  The integration variable of a delayed
integral is bound, so it is not replaced inside the body. -/
def substList (m : List (String × Expr)) : Expr → Expr
  | intE n => intE n
  | floatE s => floatE s
  | sym s =>
      match m.lookup s with
      | some e => e
      | none => sym s
  | cpi => cpi
  | cE => cE
  | cI => cI
  | cOo => cOo
  | boolE b => boolE b
  | add a b => add (substList m a) (substList m b)
  | mul a b => mul (substList m a) (substList m b)
  | powE a b => powE (substList m a) (substList m b)
  | eqE a b => eqE (substList m a) (substList m b)
  | fnHead f => fnHead f
  | appFn f args => appFn f (substListL m args)
  | matE r c es => matE r c (substListL m es)
  | integralD v lo hi body =>
      integralD v (substList m lo) (substList m hi)
        (substList (m.filter (fun p => p.1 ≠ v)) body)

/-- Substitution over a list of expressions. -/
def substListL (m : List (String × Expr)) : List Expr → List Expr
  | [] => []
  | e :: es => substList m e :: substListL m es

end

mutual

/-- Model of SymPy's `latex` printer on the expression space. -/
def latexE : Expr → String
  | intE n => toString n
  | floatE s => s
  | sym s => s
  | cpi => "\\pi"
  | cE => "e"
  | cI => "i"
  | cOo => "\\infty"
  | boolE b => if b then "\\text{True}" else "\\text{False}"
  | add a b => latexE a ++ " + " ++ latexE b
  | mul a b => latexE a ++ " \\cdot " ++ latexE b
  | powE a b => latexE a ++ "^\x7b" ++ latexE b ++ "\x7d"
  | eqE a b => latexE a ++ " = " ++ latexE b
  | fnHead f => f
  | appFn f args => f ++ "(" ++ latexEL args ++ ")"
  | matE _ c es => "\\mat[" ++ toString c ++ "](" ++ latexEL es ++ ")"
  | integralD v lo hi body =>
      "\\int_\x7b" ++ latexE lo ++ "\x7d^\x7b" ++ latexE hi ++ "\x7d "
        ++ latexE body ++ "\\, d" ++ v

/-- LaTeX rendering of a comma-separated expression list. -/
def latexEL : List Expr → String
  | [] => ""
  | [e] => latexE e
  | e :: es => latexE e ++ ", " ++ latexEL es

end

mutual

/-- Model of SymPy's unicode `pretty` printer on the expression space. -/
def plainE : Expr → String
  | intE n => toString n
  | floatE s => s
  | sym s => s
  | cpi => "π"
  | cE => "ℯ"
  | cI => "ⅈ"
  | cOo => "∞"
  | boolE b => if b then "True" else "False"
  | add a b => plainE a ++ " + " ++ plainE b
  | mul a b => plainE a ++ "⋅" ++ plainE b
  | powE a b => plainE a ++ "**" ++ plainE b
  | eqE a b => plainE a ++ " = " ++ plainE b
  | fnHead f => f
  | appFn f args => f ++ "(" ++ plainEL args ++ ")"
  | matE _ c es => "mat[" ++ toString c ++ "](" ++ plainEL es ++ ")"
  | integralD v lo hi body =>
      "Integral(" ++ plainE body ++ ", (" ++ v ++ ", " ++ plainE lo ++ ", "
        ++ plainE hi ++ "))"

/-- Plain rendering of a comma-separated expression list. -/
def plainEL : List Expr → String
  | [] => ""
  | [e] => plainE e
  | e :: es => plainE e ++ ", " ++ plainEL es

end

mutual

/-- Model of SymPy's `N` (default precision numeric evaluation): exact
numbers and constants become `Float` atoms with their default 15-digit
rendering; everything else is mapped structurally with symbols left alone. -/
def numApprox : Expr → Expr
  | intE n => floatE (toString n ++ ".0")
  | floatE s => floatE s
  | sym s => sym s
  | cpi => floatE "3.14159265358979"
  | cE => floatE "2.71828182845905"
  | cI => mul (floatE "1.0") cI
  | cOo => cOo
  | boolE b => boolE b
  | add a b => add (numApprox a) (numApprox b)
  | mul a b => mul (numApprox a) (numApprox b)
  | powE a b => powE (numApprox a) (numApprox b)
  | eqE a b => eqE (numApprox a) (numApprox b)
  | fnHead f => fnHead f
  | appFn f args => appFn f (numApproxL args)
  | matE r c es => matE r c (numApproxL es)
  | integralD v lo hi body => integralD v (numApprox lo) (numApprox hi) body

/-- `N` over a list of expressions. -/
def numApproxL : List Expr → List Expr
  | [] => []
  | e :: es => numApprox e :: numApproxL es

end

/-- Model of SymPy's `is_Integer` flag (`getattr(expr, 'is_Integer', False)`). -/
def isInteger : Expr → Bool
  | intE _ => true
  | _ => false

/-- Model of `isinstance(expr, MatrixBase)`. -/
def isMat : Expr → Bool
  | matE _ _ _ => true
  | _ => false

/-- Whether the expression is a concrete number literal (used by the model of
`Eq`'s auto-evaluation and of `simplify` on equations). -/
def isNumberLit : Expr → Bool
  | intE _ => true
  | floatE _ => true
  | cpi => true
  | cE => true
  | cOo => true
  | _ => false

/-- Model of SymPy's `Eq` smart constructor: comparing two concrete numbers
collapses to a boolean; otherwise an `Eq` node is built. -/
def mkEq (l r : Expr) : Expr :=
  if beqE l r then boolE true
  else if isNumberLit l && isNumberLit r then boolE false
  else eqE l r

mutual

/-- Model of SymPy's `simplify` on the expression space: integer arithmetic
is folded, `x + 0`, `x * 1`, `x * 0` are reduced, equations between
identical or distinct concrete numbers collapse to booleans, and all other
shapes are mapped structurally. -/
def simplifyE : Expr → Expr
  | intE n => intE n
  | floatE s => floatE s
  | sym s => sym s
  | cpi => cpi
  | cE => cE
  | cI => cI
  | cOo => cOo
  | boolE b => boolE b
  | add a b =>
      match simplifyE a, simplifyE b with
      | intE m, intE n => intE (m + n)
      | intE 0, e => e
      | e, intE 0 => e
      | e, f => add e f
  | mul a b =>
      match simplifyE a, simplifyE b with
      | intE m, intE n => intE (m * n)
      | intE 1, e => e
      | e, intE 1 => e
      | intE 0, _ => intE 0
      | _, intE 0 => intE 0
      | e, f => mul e f
  | powE a b =>
      match simplifyE a, simplifyE b with
      | intE m, intE (Int.ofNat n) => intE (m ^ n)
      | e, f => powE e f
  | eqE a b => mkEq (simplifyE a) (simplifyE b)
  | fnHead f => fnHead f
  | appFn f args => appFn f (simplifyEL args)
  | matE r c es => matE r c (simplifyEL es)
  | integralD v lo hi body => integralD v lo hi body

/-- `simplify` over a list of expressions. -/
def simplifyEL : List Expr → List Expr
  | [] => []
  | e :: es => simplifyE e :: simplifyEL es

end

end Expr

/-- A stored variable binding, `name → \x7b'expr': …, 'deps': …\x7d`. -/
structure VarEntry where
  expr : Expr
  deps : List String

/-- A stored function definition, `name → \x7b'params': …, 'expr': …, 'deps': …\x7d`. -/
structure FnEntry where
  params : List String
  expr : Expr
  deps : List String

/-- The `_variables` table. -/
abbrev VarTab := List (String × VarEntry)

/-- The `_functions` table. -/
abbrev FnTab := List (String × FnEntry)

/-- The global session state: `_variables`, `_functions`, `_symbols_cache`.
The symbol cache is modelled by the list of names that have been interned.
(`vars`/`funcs` stand for `_variables`/`_functions`; `variables` is not a
legal field name in Lean.) -/
structure CasState where
  vars : VarTab
  funcs : FnTab
  symbolsCache : List String

/-- `_get_symbol`: return a cached `Symbol`, creating (interning) if needed. -/
def getSymbol (cache : List String) (name : String) : Expr × List String :=
  if name ∈ cache then (Expr.sym name, cache)
  else (Expr.sym name, cache ++ [name])

/-- Python `dict` assignment `tab[name] = v`: replace in place if the key is
present, else append. -/
def setEntry {α : Type} (tab : List (String × α)) (name : String) (v : α) :
    List (String × α) :=
  if (tab.lookup name).isSome then
    tab.map (fun p => if p.1 = name then (name, v) else p)
  else tab ++ [(name, v)]

/-- The circular-dependency diagnostic raised by `_resolve_variable`. -/
def circularMsg (name : String) : String :=
  "Circular dependency detected involving \x27" ++ name ++ "\x27"

/-- Python's recursion-depth failure, which the recursive helpers hit when
their recursion does not terminate before the interpreter's stack limit. -/
def recursionMsg : String := "maximum recursion depth exceeded"

/-- Python's default recursion limit: each entry into a recursive helper is
given this much call-stack fuel. -/
def RECURSION_LIMIT : Nat := 1000

/-- The recursion of `_resolve_variable`, defunctionalized so that it is
structural on the call-stack fuel: mode `.inl name` is a
`_resolve_variable(name, visited)` call, and mode `.inr names` is its
`for sym in expr.free_symbols` loop over the dependency names, building the
substitution map and threading the symbol cache.  The visited set is passed
by value into each recursive call (`visited.copy()`), so siblings do not
poison one another.  The `.inl`/`.inr` result mismatches are unreachable. -/
def resolveVarRun (vars : VarTab) :
    Nat → String ⊕ List String → List String → List String →
    Except String (Expr ⊕ List (String × Expr)) × List String
  | 0, _, _, cache => (.error recursionMsg, cache)
  | fuel + 1, .inl name, visited, cache =>
      if name ∈ visited then (.error (circularMsg name), cache)
      else
        match vars.lookup name with
        | none =>
            let p := getSymbol cache name
            (.ok (.inl p.1), p.2)
        | some entry =>
            let deps := (freeNames entry.expr).filter
              (fun sn => (vars.lookup sn).isSome)
            match resolveVarRun vars fuel (.inr deps) (name :: visited) cache with
            | (.error e, c) => (.error e, c)
            | (.ok (.inr subs), c) =>
                if subs.isEmpty then (.ok (.inl entry.expr), c)
                else (.ok (.inl (entry.expr.substList subs)), c)
            | (.ok (.inl _), c) => (.error recursionMsg, c)
  | _ + 1, .inr [], _, cache => (.ok (.inr []), cache)
  | fuel + 1, .inr (n :: rest), visited, cache =>
      match resolveVarRun vars fuel (.inl n) visited cache with
      | (.error e, c) => (.error e, c)
      | (.ok (.inl e), c) =>
          match resolveVarRun vars fuel (.inr rest) visited c with
          | (.error e2, c2) => (.error e2, c2)
          | (.ok (.inr subs), c2) => (.ok (.inr ((n, e) :: subs)), c2)
          | (.ok (.inl _), c2) => (.error recursionMsg, c2)
      | (.ok (.inr _), c) => (.error recursionMsg, c)

/-- `_resolve_variable`: recursively substitute dependent variables into the
expression stored for `name`, detecting circular dependencies.  Wrapper over
`resolveVarRun` giving each entry the interpreter's stack budget. -/
def resolveVariable (vars : VarTab) (cache : List String) (name : String)
    (visited : List String) : Except String Expr × List String :=
  match resolveVarRun vars RECURSION_LIMIT (.inl name) visited cache with
  | (.error e, c) => (.error e, c)
  | (.ok (.inl e), c) => (.ok e, c)
  | (.ok (.inr _), c) => (.error recursionMsg, c)

/-- The `for sym in expr.free_symbols` loop of `_resolve_expr`: each
dependency is resolved with a fresh visited set (`_resolve_variable(sn)`
with `visited=None`). -/
def resolveTop (vars : VarTab) (cache : List String) :
    List String → Except String (List (String × Expr)) × List String
  | [] => (.ok [], cache)
  | n :: rest =>
      match resolveVariable vars cache n [] with
      | (.error e, c) => (.error e, c)
      | (.ok e, c) =>
          match resolveTop vars c rest with
          | (.error e2, c2) => (.error e2, c2)
          | (.ok subs, c2) => (.ok ((n, e) :: subs), c2)

/-- Model of SymPy's generic `expr.args`. -/
def exprArgs : Expr → List Expr
  | .add a b => [a, b]
  | .mul a b => [a, b]
  | .powE a b => [a, b]
  | .eqE a b => [a, b]
  | .appFn _ args => args
  | .matE _ _ es => es
  | .integralD _ lo hi body => [lo, hi, body]
  | _ => []

/-- Model of SymPy's generic reconstruction `expr.func(*new_args)`. -/
def withArgs : Expr → List Expr → Expr
  | .add _ _, [a, b] => .add a b
  | .mul _ _, [a, b] => .mul a b
  | .powE _ _, [a, b] => .powE a b
  | .eqE _ _, [a, b] => .eqE a b
  | .appFn f _, args => .appFn f args
  | .matE r c _, es => .matE r c es
  | .integralD v _ _ _, [lo, hi, body] => .integralD v lo hi body
  | e, _ => e

/-- Call modes of the mutually recursive pair `_apply_user_functions` /
`_resolve_expr`, defunctionalized to be structural on the call-stack fuel:
`.auf e` is `_apply_user_functions(e)`, `.generic e` is its
`if hasattr(expr, 'args') and expr.args:` tail, `.lst es` is the
argument-list comprehension, and `.rexpr e exclude` is
`_resolve_expr(e, exclude)`. -/
inductive RMode where
  | auf : Expr → RMode
  | generic : Expr → RMode
  | lst : List Expr → RMode
  | rexpr : Expr → List String → RMode

/-- The joint recursion of `_apply_user_functions` and `_resolve_expr`.
An `AppliedUndef` whose head is a user function with matching arity gets its
parameters substituted by the actual arguments, after which the result is
rewritten again and then resolved; every other node is mapped over its
`args`; `_resolve_expr` first rewrites user functions and then substitutes
every defined, non-excluded free variable through `_resolve_variable`.
The mutual recursion can diverge in Python (e.g. on a self-referential
function definition), hence the explicit recursion-depth fuel.  Results are
`.inl` for expression modes and `.inr` for the list mode; the mismatches
are unreachable. -/
def resolveRun (vars : VarTab) (fns : FnTab) :
    Nat → RMode → List String → Except String (Expr ⊕ List Expr) × List String
  | 0, _, cache => (.error recursionMsg, cache)
  | fuel + 1, .auf e, cache =>
      (match e with
      | .appFn fname args =>
          (match fns.lookup fname with
          | some fdef =>
              if args.length = fdef.params.length then
                let result := fdef.expr.substList (fdef.params.zip args)
                match resolveRun vars fns fuel (.auf result) cache with
                | (.error msg, c) => (.error msg, c)
                | (.ok (.inl r2), c) => resolveRun vars fns fuel (.rexpr r2 []) c
                | (.ok (.inr _), c) => (.error recursionMsg, c)
              else resolveRun vars fns fuel (.generic (.appFn fname args)) cache
          | none => resolveRun vars fns fuel (.generic (.appFn fname args)) cache)
      | _ => resolveRun vars fns fuel (.generic e) cache)
  | fuel + 1, .generic e, cache =>
      let args := exprArgs e
      if args.isEmpty then (.ok (.inl e), cache)
      else
        match resolveRun vars fns fuel (.lst args) cache with
        | (.error msg, c) => (.error msg, c)
        | (.ok (.inr newArgs), c) =>
            if Expr.beqEL newArgs args then (.ok (.inl e), c)
            else (.ok (.inl (withArgs e newArgs)), c)
        | (.ok (.inl _), c) => (.error recursionMsg, c)
  | _ + 1, .lst [], cache => (.ok (.inr []), cache)
  | fuel + 1, .lst (a :: rest), cache =>
      match resolveRun vars fns fuel (.auf a) cache with
      | (.error msg, c) => (.error msg, c)
      | (.ok (.inl a2), c) =>
          match resolveRun vars fns fuel (.lst rest) c with
          | (.error msg, c2) => (.error msg, c2)
          | (.ok (.inr rest2), c2) => (.ok (.inr (a2 :: rest2)), c2)
          | (.ok (.inl _), c2) => (.error recursionMsg, c2)
      | (.ok (.inr _), c) => (.error recursionMsg, c)
  | fuel + 1, .rexpr e exclude, cache =>
      match resolveRun vars fns fuel (.auf e) cache with
      | (.error msg, c) => (.error msg, c)
      | (.ok (.inl e1), c) =>
          let names := (freeNames e1).filter
            (fun sn => (vars.lookup sn).isSome && !(exclude.contains sn))
          match resolveTop vars c names with
          | (.error msg, c2) => (.error msg, c2)
          | (.ok subs, c2) =>
              if subs.isEmpty then (.ok (.inl e1), c2)
              else (.ok (.inl (e1.substList subs)), c2)
      | (.ok (.inr _), c) => (.error recursionMsg, c)

/-- `_apply_user_functions` (wrapper over `resolveRun`). -/
def applyUserFunctions (vars : VarTab) (fns : FnTab) (fuel : Nat)
    (cache : List String) (e : Expr) : Except String Expr × List String :=
  match resolveRun vars fns fuel (.auf e) cache with
  | (.error msg, c) => (.error msg, c)
  | (.ok (.inl e2), c) => (.ok e2, c)
  | (.ok (.inr _), c) => (.error recursionMsg, c)

/-- `_resolve_expr`: substitute all known variables and user-defined
functions into an expression, skipping the names in `exclude` (wrapper over
`resolveRun`). -/
def resolveExpr (vars : VarTab) (fns : FnTab) (fuel : Nat)
    (cache : List String) (e : Expr) (exclude : List String) :
    Except String Expr × List String :=
  match resolveRun vars fns fuel (.rexpr e exclude) cache with
  | (.error msg, c) => (.error msg, c)
  | (.ok (.inl e2), c) => (.ok e2, c)
  | (.ok (.inr _), c) => (.error recursionMsg, c)

/-! ### List-based string utilities

The Python string methods (`strip`, `replace`, `split`, prefix/suffix
tests) are modelled by structural functions over `List Char` so that
concrete evaluations reduce quickly. -/

/-- Python `str.strip()`: drop whitespace from both ends. -/
def trimChars (cs : List Char) : List Char :=
  ((cs.dropWhile Char.isWhitespace).reverse.dropWhile Char.isWhitespace).reverse

/-- `String.mk ∘ trimChars`: Python `s.strip()`. -/
def strTrim (s : String) : String := String.mk (trimChars s.data)

/-- Python `str.replace`: replace non-overlapping occurrences of `pat`
left to right.  Structural on the fuel, which the wrapper sets high enough
to cover the whole input. -/
def replaceGo (pat rep : List Char) : Nat → List Char → List Char
  | 0, cs => cs
  | _ + 1, [] => []
  | fuel + 1, c :: rest =>
      if pat.isPrefixOf (c :: rest) then
        rep ++ replaceGo pat rep fuel (List.drop pat.length (c :: rest))
      else c :: replaceGo pat rep fuel rest

/-- `replaceGo` with sufficient fuel. -/
def replaceL (pat rep cs : List Char) : List Char :=
  replaceGo pat rep (cs.length + 1) cs

/-- Python `str.split(sep)` / `re.split` on a fixed separator: split on
non-overlapping occurrences left to right, keeping empty pieces. -/
def splitGo (sep : List Char) : Nat → List Char → List Char → List (List Char)
  | 0, acc, cs => [acc.reverse ++ cs]
  | _ + 1, acc, [] => [acc.reverse]
  | fuel + 1, acc, c :: rest =>
      if sep.isPrefixOf (c :: rest) then
        acc.reverse :: splitGo sep fuel [] (List.drop sep.length (c :: rest))
      else splitGo sep fuel (c :: acc) rest

/-- `splitGo` with sufficient fuel. -/
def splitOnL (sep cs : List Char) : List (List Char) :=
  splitGo sep (cs.length + 1) [] cs

/-- Decimal digits to a natural number. -/
def charsToNat (cs : List Char) : Nat :=
  cs.foldl (fun n d => 10 * n + (d.toNat - 48)) 0

/-! ### Parsing (`_safe_parse_latex`, fallback `parse_expr` path)

The claims exercise `_safe_parse_latex` only on plain algebraic input
(identifiers, integer literals, `+ - *`, parentheses, commas, function
application).  On such input the function takes its `parse_expr` fallback
with `_latex_to_algebra` acting as the identity, so the model below is that
fallback: collect the identifiers, build the local symbol table with the
same precedence of cases as the source, tokenize and parse with implicit
multiplication, then substitute the constant-aliased symbols
(`_fix_constants`).  Input containing LaTeX commands or other characters is
outside the modelled fragment and is rejected by the tokenizer, modelling a
`parse_expr` failure. -/

/-- A word character, `\w` in the source's regexes. -/
def isWordChar (c : Char) : Bool := c.isAlphanum || c = '_'

/-- A character that can start an identifier, `[a-zA-Z_]`. -/
def isIdentStart (c : Char) : Bool := c.isAlpha || c = '_'

/-- A valid identifier, the shape matched by `[a-zA-Z_]\w*`. -/
def isValidIdent (s : String) : Bool :=
  match s.data with
  | [] => false
  | c :: rest => isIdentStart c && rest.all isWordChar

/-- `re.findall(r'[a-zA-Z_]\w*', s)`: every identifier occurring in the
input, in textual order.  Structural on the fuel, which the wrapper sets
high enough to cover the whole input. -/
def collectNames (s : String) : List String :=
  go (s.data.length + 1) s.data
where
  /-- Scan for identifier runs. -/
  go : Nat → List Char → List String
  | 0, _ => []
  | _ + 1, [] => []
  | fuel + 1, c :: rest =>
      if isIdentStart c then
        String.mk (c :: rest.takeWhile isWordChar)
          :: go fuel (rest.dropWhile isWordChar)
      else go fuel rest

/-- `_MULTICHAR_SYMBOLS`: multi-character names preserved as single symbols. -/
def MULTICHAR_SYMBOLS : List String :=
  ["alpha", "beta", "gamma", "delta", "epsilon", "varepsilon",
   "zeta", "eta", "theta", "vartheta",
   "iota", "kappa", "mu", "nu", "xi",
   "rho", "sigma", "tau", "upsilon", "phi", "varphi",
   "chi", "psi", "omega",
   "Gamma", "Delta", "Theta", "Lambda", "Xi",
   "Sigma", "Upsilon", "Phi", "Psi", "Omega",
   "infty", "infinity"]

/-- `_KNOWN_NAMES`: names that should not become symbol products. -/
def KNOWN_NAMES : List String :=
  ["sin", "cos", "tan", "cot", "sec", "csc",
   "asin", "acos", "atan", "atan2",
   "arcsin", "arccos", "arctan",
   "sinh", "cosh", "tanh", "coth",
   "asinh", "acosh", "atanh",
   "sqrt", "cbrt", "root", "abs",
   "log", "ln", "exp",
   "factorial", "binomial", "gamma",
   "floor", "ceiling", "ceil",
   "gcd", "lcm",
   "pi", "oo", "inf",
   "solve", "factor", "expand", "simplify",
   "diff", "integrate", "limit", "series",
   "lim", "int", "sum", "prod",
   "det", "inv", "trace", "tr", "transpose", "trans",
   "eigenvals", "eigenvects", "eigenvectors", "rank", "rref",
   "nullspace", "colspace", "charpoly",
   "Rational", "Integer", "Float",
   "True", "False", "None"]

/-- The keys of `_CONST_SUBS` (`_fix_constants` substitution): symbol names
replaced by constants after parsing. -/
def CONSTANT_SUB_NAMES : List String := ["pi", "e", "i", "oo", "inf", "infty"]

/-- `_fix_constants`: replace `pi`/`e`/`i`/`oo`/`inf`/`infty` symbols with
the corresponding constant nodes. -/
def fixConstants (e : Expr) : Expr :=
  e.substList [("pi", .cpi), ("e", .cE), ("i", .cI),
               ("oo", .cOo), ("inf", .cOo), ("infty", .cOo)]

/-- The local-dict construction of `_safe_parse_latex`: each identifier in
the input is looked up in the same order of cases as the source
(user functions, then variables, then Greek/multichar, then known builtins,
then single characters); the cases that call `_get_symbol` intern the name
in the symbol cache. -/
def buildLocalCache (vars : VarTab) (fns : FnTab) (cache : List String)
    (names : List String) : List String :=
  names.foldl
    (fun c n =>
      if (fns.lookup n).isSome then c
      else if (vars.lookup n).isSome then (getSymbol c n).2
      else if MULTICHAR_SYMBOLS.contains n then (getSymbol c n).2
      else if KNOWN_NAMES.contains n then c
      else if n.length = 1 then (getSymbol c n).2
      else c)
    cache

/-- Tokens of the algebraic surface grammar. -/
inductive Tok where
  | num : Int → Tok
  | ident : String → Tok
  | plus : Tok
  | minus : Tok
  | star : Tok
  | lparen : Tok
  | rparen : Tok
  | comma : Tok
deriving DecidableEq, Repr

/-- Tokenizer for the algebraic surface grammar; any character outside the
fragment is a parse failure.  Structural on the fuel, which the wrapper
sets high enough to cover the whole input. -/
def tokenize (s : String) : Except String (List Tok) :=
  go (s.data.length + 1) s.data
where
  /-- Consume one token or whitespace character per step. -/
  go : Nat → List Char → Except String (List Tok)
  | 0, _ => .error recursionMsg
  | _ + 1, [] => .ok []
  | fuel + 1, c :: rest =>
      if c = ' ' then go fuel rest
      else if c.isDigit then
        let n : Nat := charsToNat (c :: rest.takeWhile Char.isDigit)
        match go fuel (rest.dropWhile Char.isDigit) with
        | .error msg => .error msg
        | .ok ts => .ok (.num (Int.ofNat n) :: ts)
      else if isIdentStart c then
        match go fuel (rest.dropWhile isWordChar) with
        | .error msg => .error msg
        | .ok ts => .ok (.ident (String.mk (c :: rest.takeWhile isWordChar)) :: ts)
      else if c = '+' then (go fuel rest).map (.plus :: ·)
      else if c = '-' then (go fuel rest).map (.minus :: ·)
      else if c = '*' then (go fuel rest).map (.star :: ·)
      else if c = '(' then (go fuel rest).map (.lparen :: ·)
      else if c = ')' then (go fuel rest).map (.rparen :: ·)
      else if c = ',' then (go fuel rest).map (.comma :: ·)
      else .error ("could not parse input near \x27" ++ String.mk [c] ++ "\x27")

/-- Parser modes of the algebraic surface grammar, defunctionalized to be
structural on the fuel: `.sum`/`.sumTail` are the additive level (SymPy
builds `a - b` as `Add(a, Mul(-1, b))`), `.prod`/`.prodTail` the
multiplicative level with explicit `*` and implicit multiplication by
juxtaposition (`5x`, `2(x+1)`, as produced by
`implicit_multiplication_application`), `.atom` the atoms (integer
literals, identifiers resolved through the same case order as the source's
local-dict construction, parenthesised expressions, function application),
and `.args` a comma-separated argument list terminated by `)`. -/
inductive PMode where
  | sum : PMode
  | sumTail : Expr → PMode
  | prod : PMode
  | prodTail : Expr → PMode
  | atom : PMode
  | args : PMode

/-- The recursive-descent parser over the token list.  Results are `.inl`
for expression modes and `.inr` for the argument-list mode; the mismatches
are unreachable. -/
def parseRun (vars : VarTab) (fns : FnTab) :
    Nat → PMode → List Tok → Except String ((Expr ⊕ List Expr) × List Tok)
  | 0, _, _ => .error recursionMsg
  | fuel + 1, .sum, toks =>
      match parseRun vars fns fuel .prod toks with
      | .error m => .error m
      | .ok (.inl e, rest) => parseRun vars fns fuel (.sumTail e) rest
      | .ok (.inr _, _) => .error recursionMsg
  | fuel + 1, .sumTail acc, toks =>
      match toks with
      | .plus :: rest =>
          match parseRun vars fns fuel .prod rest with
          | .error m => .error m
          | .ok (.inl e, rest2) => parseRun vars fns fuel (.sumTail (.add acc e)) rest2
          | .ok (.inr _, _) => .error recursionMsg
      | .minus :: rest =>
          match parseRun vars fns fuel .prod rest with
          | .error m => .error m
          | .ok (.inl e, rest2) =>
              parseRun vars fns fuel (.sumTail (.add acc (.mul (.intE (-1)) e))) rest2
          | .ok (.inr _, _) => .error recursionMsg
      | _ => .ok (.inl acc, toks)
  | fuel + 1, .prod, toks =>
      match parseRun vars fns fuel .atom toks with
      | .error m => .error m
      | .ok (.inl e, rest) => parseRun vars fns fuel (.prodTail e) rest
      | .ok (.inr _, _) => .error recursionMsg
  | fuel + 1, .prodTail acc, toks =>
      match toks with
      | .star :: rest =>
          match parseRun vars fns fuel .atom rest with
          | .error m => .error m
          | .ok (.inl e, rest2) => parseRun vars fns fuel (.prodTail (.mul acc e)) rest2
          | .ok (.inr _, _) => .error recursionMsg
      | .num _ :: _ | .ident _ :: _ | .lparen :: _ =>
          match parseRun vars fns fuel .atom toks with
          | .error m => .error m
          | .ok (.inl e, rest2) => parseRun vars fns fuel (.prodTail (.mul acc e)) rest2
          | .ok (.inr _, _) => .error recursionMsg
      | _ => .ok (.inl acc, toks)
  | fuel + 1, .atom, toks =>
      match toks with
      | .num n :: rest => .ok (.inl (.intE n), rest)
      | .ident s :: rest =>
          if (fns.lookup s).isSome then
            match rest with
            | .lparen :: rest2 =>
                match parseRun vars fns fuel .args rest2 with
                | .error m => .error m
                | .ok (.inr argsL, rest3) => .ok (.inl (.appFn s argsL), rest3)
                | .ok (.inl _, _) => .error recursionMsg
            | _ => .ok (.inl (.fnHead s), rest)
          else if (vars.lookup s).isSome then .ok (.inl (.sym s), rest)
          else if MULTICHAR_SYMBOLS.contains s then .ok (.inl (.sym s), rest)
          else if KNOWN_NAMES.contains s then
            -- resolved from SymPy's global namespace by `parse_expr`
            if s = "pi" then .ok (.inl .cpi, rest)
            else if s = "oo" then .ok (.inl .cOo, rest)
            else if s = "True" then .ok (.inl (.boolE true), rest)
            else if s = "False" then .ok (.inl (.boolE false), rest)
            else if s = "inf" || s = "None" then
              .error ("name \x27" ++ s ++ "\x27 is not defined")
            else
              match rest with
              | .lparen :: rest2 =>
                  match parseRun vars fns fuel .args rest2 with
                  | .error m => .error m
                  | .ok (.inr argsL, rest3) => .ok (.inl (.appFn s argsL), rest3)
                  | .ok (.inl _, _) => .error recursionMsg
              | _ => .ok (.inl (.fnHead s), rest)
          else .ok (.inl (.sym s), rest)
      | .lparen :: rest =>
          match parseRun vars fns fuel .sum rest with
          | .error m => .error m
          | .ok (.inl e, .rparen :: rest2) => .ok (.inl e, rest2)
          | .ok (.inl _, _) => .error "expected closing parenthesis"
          | .ok (.inr _, _) => .error recursionMsg
      | _ => .error "could not parse input"
  | fuel + 1, .args, toks =>
      match parseRun vars fns fuel .sum toks with
      | .error m => .error m
      | .ok (.inl e, .comma :: rest) =>
          match parseRun vars fns fuel .args rest with
          | .error m => .error m
          | .ok (.inr argsL, rest2) => .ok (.inr (e :: argsL), rest2)
          | .ok (.inl _, _) => .error recursionMsg
      | .ok (.inl e, .rparen :: rest) => .ok (.inr [e], rest)
      | .ok (.inl _, _) => .error "expected comma or closing parenthesis"
      | .ok (.inr _, _) => .error recursionMsg

/-- The additive level of the grammar (wrapper over `parseRun`, the entry
point used by `parse_expr`). -/
def parseSum (vars : VarTab) (fns : FnTab) (fuel : Nat) (toks : List Tok) :
    Except String (Expr × List Tok) :=
  match parseRun vars fns fuel .sum toks with
  | .error m => .error m
  | .ok (.inl e, rest) => .ok (e, rest)
  | .ok (.inr _, _) => .error recursionMsg

/-- `_safe_parse_latex` on the plain algebraic fragment: collect the
identifiers and build the local symbol table (interning into the cache),
tokenize, parse, and apply `_fix_constants`.  The cache additions happen
before the parse is attempted, as in the source, so they survive a parse
failure. -/
def parseSafe (vars : VarTab) (fns : FnTab) (cache : List String) (s : String) :
    Except String Expr × List String :=
  let cache1 := buildLocalCache vars fns cache (collectNames s).eraseDups
  match tokenize s with
  | .error msg => (.error msg, cache1)
  | .ok toks =>
      match parseSum vars fns (16 * (toks.length + 1)) toks with
      | .error msg => (.error msg, cache1)
      | .ok (e, []) => (.ok (fixConstants e), cache1)
      | .ok (_, _ :: _) => (.error "unexpected trailing input", cache1)

/-! ### Preprocessing, matrix environments, `d<var>` stripping -/

/-- `_preprocess_latex`, restricted to the textual replacement rules; the
sub/superscript brace-normalisation rules only reshape LaTeX braces and are
the identity on the modelled input fragment. -/
def preprocessLatex (s : String) : String :=
  let s1 := trimChars s.data
  let s2 := replaceL "\\right".data [] (replaceL "\\left".data [] s1)
  let s3 := replaceL "\\cdot".data ['*'] s2
  let s4 := replaceL "\\times".data ['*'] s3
  let s5 := replaceL "\\div".data ['/'] s4
  let s6 := replaceL "\\pm".data ['+'] s5
  String.mk (replaceL "\\ln".data "\\log".data s6)

/-- The environment kinds of `_MATRIX_ENV_RE`: `(p|b|v|B|V|small)?matrix`. -/
def MATRIX_ENV_KINDS : List String := ["p", "b", "v", "B", "V", "small", ""]

/-- `_MATRIX_ENV_RE.match(tex.strip())`: recognize
`\begin\x7b…matrix\x7d content \end\x7b…matrix\x7d` (the begin and end kinds
are matched independently, as in the regex) and return the inner content. -/
def matchMatrixEnv (s : String) : Option String :=
  let t := trimChars s.data
  match MATRIX_ENV_KINDS.findSome? (fun k =>
      let pre := ("\\begin\x7b" ++ k ++ "matrix\x7d").data
      if pre.isPrefixOf t then some (t.drop pre.length) else none) with
  | none => none
  | some rest =>
      match MATRIX_ENV_KINDS.findSome? (fun k =>
          let suf := ("\\end\x7b" ++ k ++ "matrix\x7d").data
          if suf.isSuffixOf rest then
            some (rest.take (rest.length - suf.length))
          else none) with
      | none => none
      | some content =>
          if content.isEmpty then none else some (String.mk content)

/-- `_is_matrix_expr`. -/
def isMatrixExpr (s : String) : Bool := (matchMatrixEnv s).isSome

/-- Does this character-list suffix match `\s*d([a-zA-Z_]\w*)\s*$` in full?
If so, return the captured variable name. -/
def dvarSuffix (cs : List Char) : Option String :=
  match cs.dropWhile Char.isWhitespace with
  | 'd' :: c :: rest =>
      if isIdentStart c then
        if (rest.dropWhile isWordChar).all Char.isWhitespace then
          some (String.mk (c :: rest.takeWhile isWordChar))
        else none
      else none
  | _ => none

/-- Leftmost start position of a `\s*d<ident>\s*$` suffix match, with the
captured variable (the search of `re.sub`). -/
def findDVarStart : List Char → Option (Nat × String)
  | [] => none
  | c :: rest =>
      match dvarSuffix (c :: rest) with
      | some v => some (0, v)
      | none =>
          match findDVarStart rest with
          | some (i, v) => some (i + 1, v)
          | none => none

/-- `re.sub(r'\s*d([a-zA-Z_]\w*)\s*$', '', body)` together with the stripped
variable name, when one was stripped. -/
def stripDVar (s : String) : String × Option String :=
  match findDVarStart s.data with
  | some (i, v) => (String.mk (s.data.take i), some v)
  | none => (s, none)

/-! ### Result records and handlers -/

/-- The JSON result record produced by the engine (`json.dumps` payload):
`ok:true` records carry `latex`/`plain`/`type` and the optional fields,
`ok:false` records carry `error`. -/
structure EvalResult where
  ok : Bool
  latex : Option String := none
  plain : Option String := none
  rtype : Option String := none
  error : Option String := none
  numericLatex : Option String := none
  numericPlain : Option String := none
  isMatrix : Option Bool := none
  rows : Option Nat := none
  cols : Option Nat := none
  name : Option String := none
  params : Option (List String) := none
deriving DecidableEq, Repr

/-- The `\x7b'ok': False, 'error': str(exc)\x7d` record. -/
def errResult (msg : String) : EvalResult := { ok := false, error := some msg }

/-- `_make_result`: build a result record, optionally including a numeric
approximation when it renders differently from the symbolic form and the
value is not an `Integer`.  (`N` is total in the model, so the `except`
around it is dead.) -/
def makeResult (e : Expr) (rtype : String) (skipNumeric : Bool)
    (name : Option String) (params : Option (List String)) : EvalResult :=
  let symLatex := Expr.latexE e
  let symPlain := Expr.plainE e
  let base : EvalResult :=
    { ok := true, latex := some symLatex, plain := some symPlain,
      rtype := some rtype, name := name, params := params }
  if skipNumeric then base
  else
    let numVal := Expr.numApprox e
    let numLat := Expr.latexE numVal
    if numLat ≠ symLatex && !(Expr.isInteger e) then
      { base with numericLatex := some numLat,
                  numericPlain := some (Expr.plainE numVal) }
    else base

/-- Row count of a matrix expression (`mat.rows`). -/
def matRowsOf : Expr → Nat
  | .matE r _ _ => r
  | _ => 0

/-- Column count of a matrix expression (`mat.cols`). -/
def matColsOf : Expr → Nat
  | .matE _ c _ => c
  | _ => 0

/-- `_make_matrix_result`: result record for a matrix value. -/
def makeMatrixResult (m : Expr) (rtype : String) (name : Option String) :
    EvalResult :=
  { ok := true, latex := some (Expr.latexE m), plain := some (Expr.plainE m),
    rtype := some rtype, isMatrix := some true,
    rows := some (matRowsOf m), cols := some (matColsOf m), name := name }

/-- The cell loop of `_parse_matrix_latex`: each cell is parsed recursively,
an empty cell is `S.Zero`. -/
def parseCells (vars : VarTab) (fns : FnTab) (cache : List String) :
    List String → Except String (List Expr) × List String
  | [] => (.ok [], cache)
  | cell :: rest =>
      if cell = "" then
        match parseCells vars fns cache rest with
        | (.error m, c) => (.error m, c)
        | (.ok row, c) => (.ok (Expr.intE 0 :: row), c)
      else
        match parseSafe vars fns cache cell with
        | (.error m, c) => (.error m, c)
        | (.ok e, c) =>
            match parseCells vars fns c rest with
            | (.error m, c2) => (.error m, c2)
            | (.ok row, c2) => (.ok (e :: row), c2)

/-- The row loop of `_parse_matrix_latex`: rows are stripped, empty rows are
skipped, each remaining row is split on `&` into stripped cells. -/
def parseMatrixRows (vars : VarTab) (fns : FnTab) (cache : List String) :
    List String → Except String (List (List Expr)) × List String
  | [] => (.ok [], cache)
  | rowStr :: rest =>
      let r := trimChars rowStr.data
      if r.isEmpty then parseMatrixRows vars fns cache rest
      else
        let cells := (splitOnL ['&'] r).map (fun c => strTrim (String.mk c))
        match parseCells vars fns cache cells with
        | (.error m, c) => (.error m, c)
        | (.ok row, c) =>
            match parseMatrixRows vars fns c rest with
            | (.error m, c2) => (.error m, c2)
            | (.ok rows, c2) => (.ok (row :: rows), c2)

/-- The `Jagged matrix` diagnostic of `_parse_matrix_latex`. -/
def jaggedMsg (i n m : Nat) : String :=
  "Jagged matrix: row " ++ toString i ++ " has " ++ toString n
    ++ " cols, expected " ++ toString m

/-- The rectangularity check of `_parse_matrix_latex`
(`for i, row in enumerate(matrix_data): …`). -/
def checkRectFrom (ncols : Nat) (i : Nat) : List (List Expr) → Except String Unit
  | [] => .ok ()
  | row :: rest =>
      if row.length ≠ ncols then .error (jaggedMsg i row.length ncols)
      else checkRectFrom ncols (i + 1) rest

/-- `_parse_matrix_latex`: recognize the environment, split rows on `\\`,
parse the cells, reject empty and jagged content, and build the matrix. -/
def parseMatrixLatex (vars : VarTab) (fns : FnTab) (cache : List String)
    (tex : String) : Except String Expr × List String :=
  match matchMatrixEnv tex with
  | none =>
      (.error ("Not a recognized matrix environment: "
                 ++ String.mk (tex.data.take 60)), cache)
  | some content =>
      let rowStrs := (splitOnL ['\\', '\\'] content.data).map String.mk
      match parseMatrixRows vars fns cache rowStrs with
      | (.error m, c) => (.error m, c)
      | (.ok rows, c) =>
          if rows.isEmpty then (.error "Empty matrix", c)
          else
            let ncols := (rows.headD []).length
            match checkRectFrom ncols 0 rows with
            | .error m => (.error m, c)
            | .ok _ => (.ok (Expr.matE rows.length ncols rows.flatten), c)

/-- `mat.applyfunc(lambda e: _resolve_expr(e))` over the entries. -/
def resolveExprList (vars : VarTab) (fns : FnTab) (cache : List String) :
    List Expr → Except String (List Expr) × List String
  | [] => (.ok [], cache)
  | e :: es =>
      match resolveExpr vars fns RECURSION_LIMIT cache e [] with
      | (.error m, c) => (.error m, c)
      | (.ok e2, c) =>
          match resolveExprList vars fns c es with
          | (.error m, c2) => (.error m, c2)
          | (.ok es2, c2) => (.ok (e2 :: es2), c2)

/-- Resolve every entry of a matrix expression against the session. -/
def resolveMatEntries (vars : VarTab) (fns : FnTab) (cache : List String) :
    Expr → Except String Expr × List String
  | .matE r c es =>
      match resolveExprList vars fns cache es with
      | (.error m, c2) => (.error m, c2)
      | (.ok es2, c2) => (.ok (.matE r c es2), c2)
  | e => (.ok e, cache)

/-- The `for dep_name in deps:` pre-store check of `_handle_var_assignment`:
every dependency that is already a defined variable is resolved with the
visited set `\x7bname\x7d`; the first `ValueError` aborts the check. -/
def precheckDeps (vars : VarTab) (cache : List String) (name : String) :
    List String → Except String Unit × List String
  | [] => (.ok (), cache)
  | d :: rest =>
      if (vars.lookup d).isSome then
        match resolveVariable vars cache d [name] with
        | (.error msg, c) => (.error msg, c)
        | (.ok _, c) => precheckDeps vars c name rest
      else precheckDeps vars cache name rest

/-- `_handle_var_assignment`: parse the body, pre-check the existing
dependencies for cycles (a failure here is caught and returned as an
`ok:false` record without storing), then store the binding and return the
resolved, simplified value.  The post-store `_resolve_variable(name)` is not
guarded: a failure there propagates as an exception while the new binding
stays stored. -/
def handleVarAssignment (st : CasState) (name : String) (bodyTex : String) :
    Except String EvalResult × CasState :=
  match parseSafe st.vars st.funcs st.symbolsCache bodyTex with
  | (.error msg, c) => (.error msg, { st with symbolsCache := c })
  | (.ok expr, c) =>
      let deps := freeNames expr
      match precheckDeps st.vars c name deps with
      | (.error msg, c1) => (.ok (errResult msg), { st with symbolsCache := c1 })
      | (.ok _, c1) =>
          let vars2 := setEntry st.vars name ⟨expr, deps⟩
          match resolveVariable vars2 c1 name [] with
          | (.error msg, c2) =>
              (.error msg, { st with vars := vars2, symbolsCache := c2 })
          | (.ok resolved, c2) =>
              (.ok (makeResult (Expr.simplifyE resolved) "assignment" false
                      (some name) none),
               { st with vars := vars2, symbolsCache := c2 })

/-- `_handle_function_def`: split and intern the parameters, parse the body,
store the definition, and return the unresolved body. -/
def handleFunctionDef (st : CasState) (fname paramsStr bodyTex : String) :
    Except String EvalResult × CasState :=
  let paramNames := (splitOnL [','] paramsStr.data).map (fun c => strTrim (String.mk c))
  let c0 := paramNames.foldl (fun c p => (getSymbol c p).2) st.symbolsCache
  match parseSafe st.vars st.funcs c0 bodyTex with
  | (.error msg, c) => (.error msg, { st with symbolsCache := c })
  | (.ok expr, c) =>
      let fns2 := setEntry st.funcs fname
        ⟨paramNames, expr, (freeNames expr).filter (fun n => !(paramNames.contains n))⟩
      (.ok (makeResult expr "function_def" true (some fname) (some paramNames)),
       { st with funcs := fns2, symbolsCache := c })

/-- `_handle_matrix_literal`: parse and resolve a bare matrix; every failure
is caught and returned as an `ok:false` record. -/
def handleMatrixLiteral (st : CasState) (tex : String) :
    Except String EvalResult × CasState :=
  match parseMatrixLatex st.vars st.funcs st.symbolsCache tex with
  | (.error msg, c) => (.ok (errResult msg), { st with symbolsCache := c })
  | (.ok m, c) =>
      match resolveMatEntries st.vars st.funcs c m with
      | (.error msg, c2) => (.ok (errResult msg), { st with symbolsCache := c2 })
      | (.ok m2, c2) =>
          (.ok (makeMatrixResult m2 "value" none), { st with symbolsCache := c2 })

/-- `_handle_matrix_assignment`: parse the matrix, resolve its entries
against the session at assignment time, and store the resolved matrix with
an empty dependency set (`ImmutableMatrix`, `deps = set()`); every failure
is caught and returned as an `ok:false` record without storing. -/
def handleMatrixAssignment (st : CasState) (name : String) (matrixTex : String) :
    Except String EvalResult × CasState :=
  match parseMatrixLatex st.vars st.funcs st.symbolsCache matrixTex with
  | (.error msg, c) => (.ok (errResult msg), { st with symbolsCache := c })
  | (.ok m, c) =>
      match resolveMatEntries st.vars st.funcs c m with
      | (.error msg, c2) => (.ok (errResult msg), { st with symbolsCache := c2 })
      | (.ok m2, c2) =>
          let vars2 := setEntry st.vars name ⟨m2, []⟩
          (.ok (makeMatrixResult m2 "assignment" (some name)),
           { st with vars := vars2, symbolsCache := c2 })

/-- The rendering of `Dummy('x')`. -/
def dummyVarName : String := "_x"

/-- The integration-variable inference of `_handle_latex_int`:
`next((s for s in free if str(s) == 'x'), free[0] if free else None)`. -/
def chooseIntVar (free : List String) : Option String :=
  if free.contains "x" then some "x" else free.head?

/-- `_handle_latex_int`: strip a trailing `d<var>` token from the body
(discarding the variable it names), parse the bounds and the body, infer the
integration variable from the free symbols of the resolved body — `x` if
free, else the first free symbol, else a fresh dummy — and integrate with
that variable excluded from resolution. -/
def handleLatexInt (st : CasState) (lowerTex upperTex bodyTex : String) :
    Except String EvalResult × CasState :=
  let body1 := strTrim (stripDVar bodyTex).1
  match parseSafe st.vars st.funcs st.symbolsCache lowerTex with
  | (.error m, c) => (.error m, { st with symbolsCache := c })
  | (.ok loE, c) =>
  match parseSafe st.vars st.funcs c upperTex with
  | (.error m, c2) => (.error m, { st with symbolsCache := c2 })
  | (.ok hiE, c2) =>
  match parseSafe st.vars st.funcs c2 body1 with
  | (.error m, c3) => (.error m, { st with symbolsCache := c3 })
  | (.ok bodyE, c3) =>
  match resolveExpr st.vars st.funcs RECURSION_LIMIT c3 bodyE [] with
  | (.error m, c4) => (.error m, { st with symbolsCache := c4 })
  | (.ok resolvedCheck, c4) =>
      let free := freeNames resolvedCheck
      let var := match chooseIntVar free with
                 | some v => v
                 | none => dummyVarName
      match resolveExpr st.vars st.funcs RECURSION_LIMIT c4 bodyE [var] with
      | (.error m, c5) => (.error m, { st with symbolsCache := c5 })
      | (.ok bodyE2, c5) =>
          (.ok (makeResult (.integralD var loE hiE bodyE2) "value" false none none),
           { st with symbolsCache := c5 })

/-- The `try:` block of the equation form (step 3 of `_eval_inner`): parse
both sides, build the equation, resolve and simplify it.  Any failure is
swallowed (`except Exception: pass`), leaving the cache additions in place. -/
def tryEquation (st : CasState) (lhsStr rhsStr : String) :
    Option EvalResult × CasState :=
  match parseSafe st.vars st.funcs st.symbolsCache (preprocessLatex lhsStr) with
  | (.error _, c) => (none, { st with symbolsCache := c })
  | (.ok lhs, c) =>
  match parseSafe st.vars st.funcs c (preprocessLatex rhsStr) with
  | (.error _, c2) => (none, { st with symbolsCache := c2 })
  | (.ok rhs, c2) =>
      match resolveExpr st.vars st.funcs RECURSION_LIMIT c2 (Expr.mkEq lhs rhs) [] with
      | (.error _, c3) => (none, { st with symbolsCache := c3 })
      | (.ok eqRes, c3) =>
          (some (makeResult (Expr.simplifyE eqRes) "equation" false none none),
           { st with symbolsCache := c3 })

/-- Step 4 of `_eval_inner`: plain expression evaluation — parse, resolve,
simplify; a matrix value is packaged as a matrix record.  (`result.doit()`
returns the same object on this path — parsing never produces a delayed
node — so the `evaled is not result` branch is not taken.) -/
def evalPlain (st : CasState) (tex : String) :
    Except String EvalResult × CasState :=
  match parseSafe st.vars st.funcs st.symbolsCache tex with
  | (.error m, c) => (.error m, { st with symbolsCache := c })
  | (.ok expr, c) =>
      match resolveExpr st.vars st.funcs RECURSION_LIMIT c expr [] with
      | (.error m, c2) => (.error m, { st with symbolsCache := c2 })
      | (.ok resolved, c2) =>
          if Expr.isMat resolved then
            (.ok (makeMatrixResult resolved "value" none),
             { st with symbolsCache := c2 })
          else
            let result := Expr.simplifyE resolved
            if Expr.isMat result then
              (.ok (makeMatrixResult result "value" none),
               { st with symbolsCache := c2 })
            else
              (.ok (makeResult result "value" false none none),
               { st with symbolsCache := c2 })

/-- Steps 3–4 of `_eval_inner` for an input containing `=`: attempt the
equation form when both sides are non-empty, falling through to plain
evaluation of the full text on any failure. -/
def evalEquationOrPlain (st : CasState) (lhsStr rhsStr fullTex : String) :
    Except String EvalResult × CasState :=
  if !(trimChars lhsStr.data).isEmpty && !(trimChars rhsStr.data).isEmpty then
    match tryEquation st lhsStr rhsStr with
    | (some r, st1) => (.ok r, st1)
    | (none, st1) => evalPlain st1 fullTex
  else evalPlain st fullTex

/-- The reserved constant names of the assignment guard
(`vname not in ('e', 'i', 'pi', 'E', 'I')`). -/
def RESERVED_CONST_NAMES : List String := ["e", "i", "pi", "E", "I"]

/-- The `\x7b'ok': True, …, 'type': 'empty'\x7d` record for empty input. -/
def emptyResult : EvalResult :=
  { ok := true, latex := some "", plain := some "", rtype := some "empty" }

/-- The dispatch-relevant shape of a preprocessed input, the outcome of the
regex cascade of `_eval_inner` (command forms other than the definite
integral are outside the modelled fragment): empty input, a definite
integral `\int_\x7ba\x7d^\x7bb\x7d body`, a matrix environment, a function
definition `f(params) = body`, an assignment-shaped input `name = body`
(the match of `_ASSIGN_VAR`), or anything else (plain). -/
inductive TexInput where
  | empty : TexInput
  | intDef : String → String → String → TexInput
  | matrixLit : String → TexInput
  | funcDef : String → String → String → TexInput
  | assignLike : String → String → TexInput
  | plain : String → TexInput

/-- `_eval_inner` on the modelled input shapes, in the source's dispatch
order.  An assignment whose name is a reserved constant falls through to the
equation form and then to plain evaluation of the full text (which still
contains `=`); an assignment whose preprocessed body is a matrix environment
takes the matrix-assignment path. -/
def evalInner (st : CasState) : TexInput → Except String EvalResult × CasState
  | .empty => (.ok emptyResult, st)
  | .intDef lo hi body => handleLatexInt st lo hi body
  | .matrixLit tex => handleMatrixLiteral st tex
  | .funcDef f ps body => handleFunctionDef st f ps body
  | .assignLike name body =>
      if RESERVED_CONST_NAMES.contains name then
        evalEquationOrPlain st name body (name ++ " = " ++ body)
      else
        let bodyPre := preprocessLatex body
        if isMatrixExpr bodyPre then handleMatrixAssignment st name bodyPre
        else handleVarAssignment st name body
  | .plain tex =>
      if tex.data.contains '=' && !(tex.data.headD ' ' == '=') then
        let lhs := String.mk (tex.data.takeWhile (· ≠ '='))
        let rhs := String.mk ((tex.data.dropWhile (· ≠ '=')).drop 1)
        evalEquationOrPlain st lhs rhs tex
      else evalPlain st tex

/-- `cas_evaluate`: the public entry point.  Every exception of
`_eval_inner` is caught and packaged as `\x7b'ok': False, 'error': str(exc)\x7d`;
the session state keeps whatever mutations happened before the failure. -/
def casEvaluate (st : CasState) (input : TexInput) : EvalResult × CasState :=
  match evalInner st input with
  | (.ok r, st1) => (r, st1)
  | (.error msg, st1) => (errResult msg, st1)

/-- The empty session (`cas_clear` resets to this). -/
def initState : CasState := { vars := [], funcs := [], symbolsCache := [] }

/-! ### Basic result-shape lemmas -/

theorem makeResult_ok (e : Expr) (rtype : String) (skip : Bool)
    (name : Option String) (params : Option (List String)) :
    (makeResult e rtype skip name params).ok = true := by
  unfold makeResult
  dsimp only
  split_ifs <;> rfl

theorem makeResult_rtype (e : Expr) (rtype : String) (skip : Bool)
    (name : Option String) (params : Option (List String)) :
    (makeResult e rtype skip name params).rtype = some rtype := by
  unfold makeResult
  dsimp only
  split_ifs <;> rfl

theorem makeMatrixResult_ok (m : Expr) (rtype : String) (name : Option String) :
    (makeMatrixResult m rtype name).ok = true := rfl

theorem makeMatrixResult_rtype (m : Expr) (rtype : String) (name : Option String) :
    (makeMatrixResult m rtype name).rtype = some rtype := rfl

/-- A result is well-formed when any `ok`-record it carries is an `ok:true`
record or an `ok:false` record with an error string; an exception
(`Except.error`) is well-formed by fiat, since the entry point converts it. -/
def wellFormedRes (p : Except String EvalResult × CasState) : Prop :=
  ∀ r : EvalResult, p.1 = .ok r →
    (r.ok = true ∨ (r.ok = false ∧ r.error.isSome = true))

theorem wellFormedRes_exc {st : CasState} (msg : String) :
    wellFormedRes (.error msg, st) := by
  intro r h
  exact Except.noConfusion h

theorem wellFormedRes_ok_makeResult {st : CasState} (e : Expr) (rtype : String)
    (skip : Bool) (name : Option String) (params : Option (List String)) :
    wellFormedRes (.ok (makeResult e rtype skip name params), st) := by
  intro r h
  injection h with h2
  subst h2
  exact Or.inl (makeResult_ok e rtype skip name params)

theorem wellFormedRes_ok_matrix {st : CasState} (m : Expr) (rtype : String)
    (name : Option String) :
    wellFormedRes (.ok (makeMatrixResult m rtype name), st) := by
  intro r h
  injection h with h2
  subst h2
  exact Or.inl (makeMatrixResult_ok m rtype name)

theorem wellFormedRes_err {st : CasState} (msg : String) :
    wellFormedRes (.ok (errResult msg), st) := by
  intro r h
  injection h with h2
  subst h2
  exact Or.inr ⟨rfl, rfl⟩

theorem wf_handleVarAssignment (st : CasState) (name body : String) :
    wellFormedRes (handleVarAssignment st name body) := by
  unfold handleVarAssignment
  dsimp only
  split
  · exact wellFormedRes_exc _
  · split
    · exact wellFormedRes_err _
    · split
      · exact wellFormedRes_exc _
      · exact wellFormedRes_ok_makeResult _ _ _ _ _

theorem wf_handleFunctionDef (st : CasState) (f ps body : String) :
    wellFormedRes (handleFunctionDef st f ps body) := by
  unfold handleFunctionDef
  dsimp only
  split
  · exact wellFormedRes_exc _
  · exact wellFormedRes_ok_makeResult _ _ _ _ _

theorem wf_handleMatrixLiteral (st : CasState) (tex : String) :
    wellFormedRes (handleMatrixLiteral st tex) := by
  unfold handleMatrixLiteral
  split
  · exact wellFormedRes_err _
  · split
    · exact wellFormedRes_err _
    · exact wellFormedRes_ok_matrix _ _ _

theorem wf_handleMatrixAssignment (st : CasState) (name tex : String) :
    wellFormedRes (handleMatrixAssignment st name tex) := by
  unfold handleMatrixAssignment
  dsimp only
  split
  · exact wellFormedRes_err _
  · split
    · exact wellFormedRes_err _
    · exact wellFormedRes_ok_matrix _ _ _

theorem wf_handleLatexInt (st : CasState) (lo hi body : String) :
    wellFormedRes (handleLatexInt st lo hi body) := by
  unfold handleLatexInt
  dsimp only
  split
  · exact wellFormedRes_exc _
  · split
    · exact wellFormedRes_exc _
    · split
      · exact wellFormedRes_exc _
      · split
        · exact wellFormedRes_exc _
        · split
          · exact wellFormedRes_exc _
          · exact wellFormedRes_ok_makeResult _ _ _ _ _

theorem wf_evalPlain (st : CasState) (tex : String) :
    wellFormedRes (evalPlain st tex) := by
  unfold evalPlain
  dsimp only
  split
  · exact wellFormedRes_exc _
  · split
    · exact wellFormedRes_exc _
    · split
      · exact wellFormedRes_ok_matrix _ _ _
      · split
        · exact wellFormedRes_ok_matrix _ _ _
        · exact wellFormedRes_ok_makeResult _ _ _ _ _

theorem wf_evalEquationOrPlain (st : CasState) (l r full : String) :
    wellFormedRes (evalEquationOrPlain st l r full) := by
  unfold evalEquationOrPlain
  split
  · split
    · rename_i r1 st1 heq
      unfold tryEquation at heq
      split at heq
      · simp at heq
      · split at heq
        · simp at heq
        · split at heq
          · simp at heq
          · simp only [Prod.mk.injEq, Option.some.injEq] at heq
            obtain ⟨h1, _⟩ := heq
            rw [← h1]
            exact wellFormedRes_ok_makeResult _ _ _ _ _
    · exact wf_evalPlain _ _
  · exact wf_evalPlain _ _

theorem wf_evalInner (st : CasState) (input : TexInput) :
    wellFormedRes (evalInner st input) := by
  cases input with
  | empty =>
      intro r h
      injection h with h2
      subst h2
      exact Or.inl rfl
  | intDef lo hi body =>
      simp only [evalInner]
      exact wf_handleLatexInt st lo hi body
  | matrixLit tex =>
      simp only [evalInner]
      exact wf_handleMatrixLiteral st tex
  | funcDef f ps body =>
      simp only [evalInner]
      exact wf_handleFunctionDef st f ps body
  | assignLike name body =>
      simp only [evalInner]
      split
      · exact wf_evalEquationOrPlain _ _ _ _
      · split
        · exact wf_handleMatrixAssignment _ _ _
        · exact wf_handleVarAssignment _ _ _
  | plain tex =>
      simp only [evalInner]
      split
      · exact wf_evalEquationOrPlain _ _ _ _
      · exact wf_evalPlain _ _

/-- C1.  For every input and session state, the evaluation entry point
`cas_evaluate` returns a result record that is either `ok:true` or `ok:false`
carrying an error string: every exception raised by an internal helper is
caught at the entry point and converted, so nothing escapes. -/
theorem c1_cas_evaluate_total (st : CasState) (input : TexInput) :
    (casEvaluate st input).1.ok = true ∨
      ((casEvaluate st input).1.ok = false ∧
       (casEvaluate st input).1.error.isSome = true) := by
  have h := wf_evalInner st input
  unfold casEvaluate
  rcases hE : evalInner st input with ⟨res, st1⟩
  rw [hE] at h
  cases res with
  | error msg => exact Or.inr ⟨rfl, rfl⟩
  | ok r => exact h r rfl

/-- C8.  Characterization of the numeric fields of a scalar result record:
an `Integer` value never carries `numeric_latex`/`numeric_plain` (whatever
`skip_numeric` is), and a non-integer value whose default-precision numeric
approximation renders differently from its symbolic rendering carries both
fields whenever the caller did not pass `skip_numeric` (as the scalar
`value` evaluations do not). -/
theorem c8_make_result_numeric (e : Expr) (rtype : String) (skip : Bool)
    (name : Option String) (params : Option (List String)) :
    ((makeResult e rtype skip name params).numericLatex,
     (makeResult e rtype skip name params).numericPlain) =
    (if skip = false ∧ Expr.isInteger e = false ∧
        Expr.latexE (Expr.numApprox e) ≠ Expr.latexE e
     then (some (Expr.latexE (Expr.numApprox e)),
           some (Expr.plainE (Expr.numApprox e)))
     else (none, none)) := by
  unfold makeResult
  dsimp only
  by_cases hs : skip
  · simp [hs]
  · by_cases hi : Expr.isInteger e
      <;> by_cases hL : Expr.latexE (Expr.numApprox e) = Expr.latexE e
      <;> simp [hs, hi, hL]



theorem resolveVariable_visited (vars : VarTab) (cache : List String)
    (name : String) (visited : List String) (h : name ∈ visited) :
    resolveVariable vars cache name visited = (.error (circularMsg name), cache) := by
  unfold resolveVariable
  rw [show (RECURSION_LIMIT) = 999 + 1 from rfl]
  rw [resolveVarRun]
  simp [h]

/-- Cache preservation for `resolveVarRun` whenever every name handled is a
defined variable: the `_get_symbol` interning branch is unreachable. -/
theorem resolveVarRun_cache (vars : VarTab) : ∀ (fuel : Nat)
    (mode : String ⊕ List String) (visited cache : List String),
    (match mode with
     | .inl name => (vars.lookup name).isSome = true
     | .inr names => ∀ n ∈ names, (vars.lookup n).isSome = true) →
    (resolveVarRun vars fuel mode visited cache).2 = cache := by
  intro fuel
  induction fuel with
  | zero => intro mode visited cache _; rfl
  | succ f ih =>
    intro mode visited cache hm
    cases mode with
    | inl name =>
      replace hm : (vars.lookup name).isSome = true := hm
      rw [resolveVarRun]
      by_cases hv : name ∈ visited
      · simp [hv]
      · simp only [hv, if_false, ite_false]
        cases hlk : vars.lookup name with
        | none =>
            rw [hlk] at hm
            exact absurd hm (by simp)
        | some entry =>
          dsimp only
          have hdeps : ∀ n ∈ (freeNames entry.expr).filter
              (fun sn => (vars.lookup sn).isSome), (vars.lookup n).isSome = true := by
            intro n hn
            exact (List.mem_filter.mp hn).2
          have h0 := ih (.inr ((freeNames entry.expr).filter
              (fun sn => (vars.lookup sn).isSome))) (name :: visited) cache hdeps
          rcases hres : resolveVarRun vars f (.inr ((freeNames entry.expr).filter
              (fun sn => (vars.lookup sn).isSome))) (name :: visited) cache with ⟨er, c⟩
          have hc : c = cache := by
            rw [hres] at h0
            exact h0
          cases er with
          | error msg => simpa using hc
          | ok v =>
            cases v with
            | inl e => simpa using hc
            | inr subs =>
                by_cases hse : subs.isEmpty <;> simp [hse, hc]
    | inr names =>
      replace hm : ∀ n ∈ names, (vars.lookup n).isSome = true := hm
      cases names with
      | nil => rw [resolveVarRun]
      | cons n rest =>
        rw [resolveVarRun]
        have h1 := ih (.inl n) visited cache (hm n (List.mem_cons_self _ _))
        rcases hres : resolveVarRun vars f (.inl n) visited cache with ⟨er, c⟩
        have hc : c = cache := by
          rw [hres] at h1
          exact h1
        cases er with
        | error msg => simpa using hc
        | ok v =>
          cases v with
          | inr subs => simpa using hc
          | inl e =>
            dsimp only
            have h2 := ih (.inr rest) visited c
              (fun m hmm => hm m (List.mem_cons_of_mem _ hmm))
            rcases hres2 : resolveVarRun vars f (.inr rest) visited c with ⟨er2, c2⟩
            have hc2 : c2 = c := by
              rw [hres2] at h2
              exact h2
            cases er2 with
            | error msg => simpa using hc2.trans hc
            | ok v2 =>
              cases v2 with
              | inl e2 => simpa using hc2.trans hc
              | inr subs => simpa using hc2.trans hc

theorem resolveVariable_cache (vars : VarTab) (cache : List String)
    (name : String) (visited : List String)
    (h : (vars.lookup name).isSome = true) :
    (resolveVariable vars cache name visited).2 = cache := by
  unfold resolveVariable
  have h0 := resolveVarRun_cache vars RECURSION_LIMIT (.inl name) visited cache h
  rcases hres : resolveVarRun vars RECURSION_LIMIT (.inl name) visited cache with ⟨er, c⟩
  have hc : c = cache := by
    rw [hres] at h0
    exact h0
  cases er with
  | error msg => simpa using hc
  | ok v =>
    cases v with
    | inl e => simpa using hc
    | inr subs => simpa using hc

theorem resolveTop_cache (vars : VarTab) (names : List String)
    (h : ∀ n ∈ names, (vars.lookup n).isSome = true) :
    ∀ cache, (resolveTop vars cache names).2 = cache := by
  induction names with
  | nil => intro cache; rfl
  | cons n rest ihn =>
    intro cache
    unfold resolveTop
    have hc0 := resolveVariable_cache vars cache n [] (h n (List.mem_cons_self _ _))
    rcases hres : resolveVariable vars cache n [] with ⟨er, c⟩
    have hc : c = cache := by
      rw [hres] at hc0
      exact hc0
    cases er with
    | error msg => simpa using hc
    | ok e =>
      dsimp only
      have h20 := ihn (fun m hm => h m (List.mem_cons_of_mem _ hm)) c
      rcases hres2 : resolveTop vars c rest with ⟨er2, c2⟩
      have h2 : c2 = c := by
        rw [hres2] at h20
        exact h20
      cases er2 with
      | error msg => simpa using h2.trans hc
      | ok subs => simpa using h2.trans hc

/-- Cache preservation for the joint `_apply_user_functions` /
`_resolve_expr` recursion, for every mode and any fuel. -/
theorem resolveRun_cache (vars : VarTab) (fns : FnTab) : ∀ (fuel : Nat)
    (mode : RMode) (cache : List String),
    (resolveRun vars fns fuel mode cache).2 = cache := by
  intro fuel
  induction fuel with
  | zero => intro mode cache; rfl
  | succ f ih =>
    intro mode cache
    cases mode with
    | auf e =>
      cases e with
      | appFn fname args =>
        rw [resolveRun]
        cases hlk : fns.lookup fname with
        | none => exact ih (.generic (.appFn fname args)) cache
        | some fdef =>
          dsimp only
          by_cases hlen : args.length = fdef.params.length
          · simp only [hlen, if_true]
            have h0 := ih (.auf (Expr.substList (fdef.params.zip args) fdef.expr)) cache
            rcases hres : resolveRun vars fns f
                (.auf (Expr.substList (fdef.params.zip args) fdef.expr)) cache with ⟨er, c⟩
            have hc : c = cache := by
              rw [hres] at h0
              exact h0
            cases er with
            | error msg => simpa using hc
            | ok v =>
              cases v with
              | inr l => simpa using hc
              | inl r2 =>
                dsimp only
                have h2 := ih (.rexpr r2 []) c
                exact h2.trans hc
          · simp only [hlen, if_false]
            exact ih (.generic (.appFn fname args)) cache
      | intE n => rw [resolveRun]; exact ih (.generic _) cache; intro fn ar h0; exact Expr.noConfusion h0
      | floatE s => rw [resolveRun]; exact ih (.generic _) cache; intro fn ar h0; exact Expr.noConfusion h0
      | sym s => rw [resolveRun]; exact ih (.generic _) cache; intro fn ar h0; exact Expr.noConfusion h0
      | cpi => rw [resolveRun]; exact ih (.generic _) cache; intro fn ar h0; exact Expr.noConfusion h0
      | cE => rw [resolveRun]; exact ih (.generic _) cache; intro fn ar h0; exact Expr.noConfusion h0
      | cI => rw [resolveRun]; exact ih (.generic _) cache; intro fn ar h0; exact Expr.noConfusion h0
      | cOo => rw [resolveRun]; exact ih (.generic _) cache; intro fn ar h0; exact Expr.noConfusion h0
      | boolE b => rw [resolveRun]; exact ih (.generic _) cache; intro fn ar h0; exact Expr.noConfusion h0
      | add a b => rw [resolveRun]; exact ih (.generic _) cache; intro fn ar h0; exact Expr.noConfusion h0
      | mul a b => rw [resolveRun]; exact ih (.generic _) cache; intro fn ar h0; exact Expr.noConfusion h0
      | powE a b => rw [resolveRun]; exact ih (.generic _) cache; intro fn ar h0; exact Expr.noConfusion h0
      | eqE a b => rw [resolveRun]; exact ih (.generic _) cache; intro fn ar h0; exact Expr.noConfusion h0
      | fnHead s => rw [resolveRun]; exact ih (.generic _) cache; intro fn ar h0; exact Expr.noConfusion h0
      | matE r c es => rw [resolveRun]; exact ih (.generic _) cache; intro fn ar h0; exact Expr.noConfusion h0
      | integralD v lo hi body => rw [resolveRun]; exact ih (.generic _) cache; intro fn ar h0; exact Expr.noConfusion h0
    | generic e =>
      rw [resolveRun]
      by_cases hempty : (exprArgs e).isEmpty
      · simp [hempty]
      · simp only [hempty, if_false]
        have h0 := ih (.lst (exprArgs e)) cache
        rcases hres : resolveRun vars fns f (.lst (exprArgs e)) cache with ⟨er, c⟩
        have hc : c = cache := by
          rw [hres] at h0
          exact h0
        cases er with
        | error msg => simpa using hc
        | ok v =>
          cases v with
          | inl e2 => simpa using hc
          | inr newArgs =>
              by_cases hbeq : Expr.beqEL newArgs (exprArgs e) <;> simp [hbeq, hc]
    | lst es =>
      cases es with
      | nil => rw [resolveRun]
      | cons a rest =>
        rw [resolveRun]
        have h1 := ih (.auf a) cache
        rcases hres : resolveRun vars fns f (.auf a) cache with ⟨er, c⟩
        have hc : c = cache := by
          rw [hres] at h1
          exact h1
        cases er with
        | error msg => simpa using hc
        | ok v =>
          cases v with
          | inr l => simpa using hc
          | inl a2 =>
            dsimp only
            have h2 := ih (.lst rest) c
            rcases hres2 : resolveRun vars fns f (.lst rest) c with ⟨er2, c2⟩
            have hc2 : c2 = c := by
              rw [hres2] at h2
              exact h2
            cases er2 with
            | error msg => simpa using hc2.trans hc
            | ok v2 =>
              cases v2 with
              | inl e2 => simpa using hc2.trans hc
              | inr rest2 => simpa using hc2.trans hc
    | rexpr e exclude =>
      rw [resolveRun]
      have h0 := ih (.auf e) cache
      rcases hres : resolveRun vars fns f (.auf e) cache with ⟨er, c⟩
      have hc : c = cache := by
        rw [hres] at h0
        exact h0
      cases er with
      | error msg => simpa using hc
      | ok v =>
        cases v with
        | inr l => simpa using hc
        | inl e1 =>
          dsimp only
          have hnames : ∀ n ∈ (freeNames e1).filter
              (fun sn => (vars.lookup sn).isSome && !(exclude.contains sn)),
              (vars.lookup n).isSome = true := by
            intro n hn
            have hx := (List.mem_filter.mp hn).2
            exact (Bool.and_eq_true _ _ |>.mp hx).1
          have h20 := resolveTop_cache vars _ hnames c
          rcases hres2 : resolveTop vars c ((freeNames e1).filter
              (fun sn => (vars.lookup sn).isSome && !(exclude.contains sn))) with ⟨er2, c2⟩
          have h2 : c2 = c := by
            rw [hres2] at h20
            exact h20
          cases er2 with
          | error msg => simpa using h2.trans hc
          | ok subs =>
            by_cases hse : subs.isEmpty <;> simp [hse, h2, hc]

theorem resolveExpr_cache (vars : VarTab) (fns : FnTab) (fuel : Nat)
    (cache : List String) (e : Expr) (exclude : List String) :
    (resolveExpr vars fns fuel cache e exclude).2 = cache := by
  unfold resolveExpr
  have h0 := resolveRun_cache vars fns fuel (.rexpr e exclude) cache
  rcases hres : resolveRun vars fns fuel (.rexpr e exclude) cache with ⟨er, c⟩
  have hc : c = cache := by
    rw [hres] at h0
    exact h0
  cases er with
  | error msg => simpa using hc
  | ok v =>
    cases v with
    | inl e2 => simpa using hc
    | inr l => simpa using hc

/-- C6.  The resolver is a pure transformation over the session: for every
expression, exclude set, and fuel, running `_resolve_expr` leaves the
variable table and the function table untouched (they are only read) and
returns the symbol cache exactly as it was — the `_get_symbol` interning
branch of `_resolve_variable` is unreachable because the resolver only
recurses into names bound in the variable table. -/
theorem c6_resolve_expr_pure (st : CasState) (e : Expr) (exclude : List String)
    (fuel : Nat) :
    (resolveExpr st.vars st.funcs fuel st.symbolsCache e exclude).2
      = st.symbolsCache :=
  resolveExpr_cache st.vars st.funcs fuel st.symbolsCache e exclude

/-! ### Identifier strings through the tokenizer and parser -/

theorem takeWhile_eq_self_of_all {α : Type} {p : α → Bool} {l : List α}
    (h : l.all p) : l.takeWhile p = l := by
  induction l with
  | nil => rfl
  | cons a t ih =>
    simp only [List.all_cons, Bool.and_eq_true] at h
    simp [List.takeWhile_cons, h.1, ih h.2]

theorem dropWhile_eq_nil_of_all {α : Type} {p : α → Bool} {l : List α}
    (h : l.all p) : l.dropWhile p = [] := by
  induction l with
  | nil => rfl
  | cons a t ih =>
    simp only [List.all_cons, Bool.and_eq_true] at h
    simp [List.dropWhile_cons, h.1, ih h.2]

theorem string_mk_data (s : String) : String.mk s.data = s := by
  cases s
  rfl

theorem isIdentStart_not_digit {c : Char} (h : isIdentStart c = true) :
    c.isDigit = false := by
  rcases Bool.or_eq_true _ _ |>.mp h with ha | he
  · unfold Char.isAlpha Char.isUpper Char.isLower at ha
    unfold Char.isDigit
    have e1 : (UInt32.toBitVec 65).toNat = 65 := by decide
    have e2 : (UInt32.toBitVec 90).toNat = 90 := by decide
    have e3 : (UInt32.toBitVec 97).toNat = 97 := by decide
    have e4 : (UInt32.toBitVec 122).toNat = 122 := by decide
    have e5 : (UInt32.toBitVec 48).toNat = 48 := by decide
    have e6 : (UInt32.toBitVec 57).toNat = 57 := by decide
    rcases Bool.or_eq_true _ _ |>.mp ha with h1 | h1 <;>
    rw [Bool.and_eq_true] at h1 <;>
    obtain ⟨ha1, hb1⟩ := h1 <;>
    · apply Bool.and_eq_false_iff.mpr
      simp only [ge_iff_le, decide_eq_true_eq] at ha1 hb1
      simp only [ge_iff_le, decide_eq_false_iff_not, not_le]
      simp only [UInt32.le_def, BitVec.le_def, UInt32.lt_def, BitVec.lt_def,
        e1, e2, e3, e4, e5, e6] at ha1 hb1 ⊢
      omega
  · have hc : c = '_' := by simpa using he
    subst hc
    decide

theorem isIdentStart_ne_space {c : Char} (h : isIdentStart c = true) :
    ¬ (c = ' ') := by
  intro hc
  subst hc
  simp [isIdentStart] at h

theorem isIdentStart_ne_char {c d : Char} (h : isIdentStart c = true)
    (hd : isIdentStart d = false) : ¬ (c = d) := by
  intro hc
  subst hc
  rw [h] at hd
  exact Bool.noConfusion hd

theorem wordChar_not_eqchar {c : Char} (h : isWordChar c = true) :
    ('=' == c) = false := by
  cases hbe : '=' == c
  · rfl
  · exfalso
    have hc : '=' = c := beq_iff_eq.mp hbe
    rw [← hc] at h
    exact Bool.noConfusion h

theorem contains_eq_false_of_all_wordChar {l : List Char}
    (h : l.all isWordChar) : l.contains '=' = false := by
  induction l with
  | nil => rfl
  | cons a t ih =>
    simp only [List.all_cons, Bool.and_eq_true] at h
    simp only [List.contains_cons, Bool.or_eq_false_iff]
    exact ⟨wordChar_not_eqchar h.1, ih h.2⟩

theorem ident_no_eq {s : String} (h : isValidIdent s = true) :
    s.data.contains '=' = false := by
  unfold isValidIdent at h
  cases hd : s.data with
  | nil => rfl
  | cons c rest =>
    rw [hd] at h
    rw [Bool.and_eq_true] at h
    simp only [List.contains_cons, Bool.or_eq_false_iff]
    constructor
    · cases hbe : '=' == c
      · rfl
      · exfalso
        have hc : '=' = c := beq_iff_eq.mp hbe
        rw [← hc] at h
        exact absurd h.1 (by decide)
    · exact contains_eq_false_of_all_wordChar h.2

theorem collectNames_ident {s : String} (h : isValidIdent s = true) :
    collectNames s = [s] := by
  unfold collectNames
  unfold isValidIdent at h
  cases hd : s.data with
  | nil => rw [hd] at h; exact Bool.noConfusion h
  | cons c rest =>
    rw [hd] at h
    rw [Bool.and_eq_true] at h
    simp only [List.length_cons]
    rw [collectNames.go]
    simp only [h.1, if_true]
    rw [takeWhile_eq_self_of_all h.2, dropWhile_eq_nil_of_all h.2]
    rw [← hd, string_mk_data]
    rw [collectNames.go]

theorem tokenize_ident {s : String} (h : isValidIdent s = true) :
    tokenize s = .ok [.ident s] := by
  unfold tokenize
  unfold isValidIdent at h
  cases hd : s.data with
  | nil => rw [hd] at h; exact Bool.noConfusion h
  | cons c rest =>
    rw [hd] at h
    rw [Bool.and_eq_true] at h
    simp only [List.length_cons]
    rw [tokenize.go]
    have hns : ¬ (c = ' ') := isIdentStart_ne_space h.1
    have hnd : c.isDigit = false := isIdentStart_not_digit h.1
    simp only [hns, if_false, hnd, h.1, if_true]
    rw [takeWhile_eq_self_of_all h.2, dropWhile_eq_nil_of_all h.2]
    rw [tokenize.go]
    rw [← hd]
    simp [string_mk_data]

/-! ### Reading a bare identifier: the full parse-and-resolve trace -/

theorem eraseDups_singleton (a : String) : [a].eraseDups = [a] := rfl

theorem substList_single_sym (s : String) (v : Expr) :
    Expr.substList [(s, v)] (.sym s) = v := by
  rw [Expr.substList]
  simp [List.lookup]

theorem fixConstants_sym {s : String} (h : s ∉ CONSTANT_SUB_NAMES) :
    fixConstants (.sym s) = .sym s := by
  simp only [CONSTANT_SUB_NAMES, List.mem_cons, List.not_mem_nil, or_false,
    not_or] at h
  obtain ⟨h1, h2, h3, h4, h5, h6⟩ := h
  unfold fixConstants
  rw [Expr.substList]
  simp [List.lookup, beq_eq_false_iff_ne.mpr h1, beq_eq_false_iff_ne.mpr h2,
    beq_eq_false_iff_ne.mpr h3, beq_eq_false_iff_ne.mpr h4,
    beq_eq_false_iff_ne.mpr h5, beq_eq_false_iff_ne.mpr h6]

theorem parseRun_prodTail_nil (vars : VarTab) (fns : FnTab) (f : Nat)
    (acc : Expr) :
    parseRun vars fns (f + 1) (.prodTail acc) [] = .ok (.inl acc, []) := rfl

theorem parseRun_sumTail_nil (vars : VarTab) (fns : FnTab) (f : Nat)
    (acc : Expr) :
    parseRun vars fns (f + 1) (.sumTail acc) [] = .ok (.inl acc, []) := rfl

theorem parseRun_atom_ident_var (vars : VarTab) (fns : FnTab) (f : Nat)
    (s : String)
    (h3 : fns.lookup s = none) (h4 : (vars.lookup s).isSome = true) :
    parseRun vars fns (f + 1) .atom [.ident s]
      = .ok (.inl (.sym s), []) := by
  rw [parseRun]
  rw [h3]
  rw [if_neg (by simp)]
  rw [if_pos h4]
  intro rest2 h0
  exact List.noConfusion h0

theorem parseSum_ident (vars : VarTab) (fns : FnTab) (s : String)
    (h3 : fns.lookup s = none) (h4 : (vars.lookup s).isSome = true) (f : Nat) :
    parseSum vars fns (f + 1 + 1 + 1) [.ident s] = .ok (.sym s, []) := by
  have hprod : parseRun vars fns (f + 1 + 1) .prod [.ident s]
      = .ok (.inl (.sym s), []) := by
    rw [parseRun]
    rw [parseRun_atom_ident_var vars fns f s h3 h4]
    exact parseRun_prodTail_nil vars fns f (.sym s)
  have hsum : parseRun vars fns (f + 1 + 1 + 1) .sum [.ident s]
      = .ok (.inl (.sym s), []) := by
    rw [parseRun]
    rw [hprod]
    exact parseRun_sumTail_nil vars fns (f + 1) (.sym s)
  unfold parseSum
  rw [hsum]

theorem parseSafe_ident (vars : VarTab) (fns : FnTab) (cache : List String)
    (s : String)
    (h1 : isValidIdent s = true) (h2 : s ∉ CONSTANT_SUB_NAMES)
    (h3 : fns.lookup s = none) (h4 : (vars.lookup s).isSome = true) :
    parseSafe vars fns cache s
      = (.ok (.sym s), buildLocalCache vars fns cache [s]) := by
  unfold parseSafe
  rw [collectNames_ident h1, eraseDups_singleton, tokenize_ident h1]
  dsimp only
  rw [show (16 * (([Tok.ident s]).length + 1)) = 29 + 1 + 1 + 1 from rfl]
  rw [parseSum_ident vars fns s h3 h4 29]
  dsimp only
  rw [fixConstants_sym h2]

theorem resolveExpr_sym (vars : VarTab) (fns : FnTab) (c : List String)
    (s : String) (h4 : (vars.lookup s).isSome = true) :
    resolveExpr vars fns RECURSION_LIMIT c (.sym s) []
      = match resolveVariable vars c s [] with
        | (.error m, c2) => (.error m, c2)
        | (.ok v, c2) => (.ok v, c2) := by
  unfold resolveExpr
  rw [show (RECURSION_LIMIT) = 997 + 1 + 1 + 1 from rfl]
  rw [resolveRun]
  rw [show resolveRun vars fns (997 + 1 + 1) (.auf (.sym s)) c
        = (.ok (.inl (.sym s)), c) from rfl]
  dsimp only
  have hfilter : List.filter
      (fun sn => (vars.lookup sn).isSome && !(List.contains ([] : List String) sn))
      (freeNames (.sym s)) = [s] := by
    rw [show freeNames (.sym s) = [s] from rfl]
    simp [h4]
  rw [hfilter]
  rw [resolveTop]
  rcases hrv : resolveVariable vars c s [] with ⟨er, c2⟩
  cases er with
  | error m => rfl
  | ok v =>
      dsimp only
      rw [resolveTop]
      dsimp only
      rw [substList_single_sym]
      rfl

theorem evalPlain_ident (st : CasState) (s : String)
    (h1 : isValidIdent s = true) (h2 : s ∉ CONSTANT_SUB_NAMES)
    (h3 : st.funcs.lookup s = none) (h4 : (st.vars.lookup s).isSome = true) :
    evalPlain st s
      = match resolveVariable st.vars
              (buildLocalCache st.vars st.funcs st.symbolsCache [s]) s [] with
        | (.error m, c2) => (.error m, { st with symbolsCache := c2 })
        | (.ok v, c2) =>
            if Expr.isMat v then
              (.ok (makeMatrixResult v "value" none),
               { st with symbolsCache := c2 })
            else if Expr.isMat (Expr.simplifyE v) then
              (.ok (makeMatrixResult (Expr.simplifyE v) "value" none),
               { st with symbolsCache := c2 })
            else
              (.ok (makeResult (Expr.simplifyE v) "value" false none none),
               { st with symbolsCache := c2 }) := by
  unfold evalPlain
  rw [parseSafe_ident st.vars st.funcs st.symbolsCache s h1 h2 h3 h4]
  dsimp only
  rw [resolveExpr_sym st.vars st.funcs _ s h4]
  rcases hrv : resolveVariable st.vars
      (buildLocalCache st.vars st.funcs st.symbolsCache [s]) s [] with ⟨er, c2⟩
  cases er with
  | error m => rfl
  | ok v => rfl

theorem evalInner_plain_ident (st : CasState) (s : String)
    (h1 : isValidIdent s = true) :
    evalInner st (.plain s) = evalPlain st s := by
  simp only [evalInner]
  rw [ident_no_eq h1]
  simp

theorem lookup_map_set {α : Type} (name : String) (v : α) :
    ∀ (tab : List (String × α)), (tab.lookup name).isSome = true →
    (tab.map (fun p => if p.1 = name then (name, v) else p)).lookup name
      = some v := by
  intro tab
  induction tab with
  | nil => intro h; simp at h
  | cons p rest ih =>
      intro h
      obtain ⟨k, w⟩ := p
      by_cases hk : k = name
      · subst hk
        simp only [List.map_cons]
        simp [List.lookup]
      · have hbk : (name == k) = false :=
          beq_eq_false_iff_ne.mpr (fun he => hk he.symm)
        simp only [List.map_cons]
        rw [if_neg (by simpa using hk)]
        simp only [List.lookup, hbk]
        apply ih
        simpa [List.lookup, hbk] using h

theorem lookup_append_self {α : Type} (name : String) (v : α) :
    ∀ (tab : List (String × α)), tab.lookup name = none →
    (tab ++ [(name, v)]).lookup name = some v := by
  intro tab
  induction tab with
  | nil => intro _; simp [List.lookup]
  | cons p rest ih =>
      intro h
      obtain ⟨k, w⟩ := p
      by_cases hk : name = k
      · subst hk
        simp [List.lookup] at h
      · have hbk : (name == k) = false := beq_eq_false_iff_ne.mpr hk
        simp only [List.cons_append, List.lookup, hbk]
        apply ih
        simpa [List.lookup, hbk] using h

theorem setEntry_lookup_self {α : Type} (tab : List (String × α))
    (name : String) (v : α) :
    (setEntry tab name v).lookup name = some v := by
  unfold setEntry
  by_cases h : (tab.lookup name).isSome
  · simp only [h, if_true]
    exact lookup_map_set name v tab h
  · simp only [h, if_false]
    exact lookup_append_self name v tab (by
      cases hlk : tab.lookup name with
      | none => rfl
      | some w => rw [hlk] at h; simp at h)

/-! ### C2: assignment then read -/

/-- C2 (amended).  Assignment-then-read is reactive for every bound name that
the parser still reads back as a symbol: if `name` is a valid identifier, is
not one of the constant-substitution names `pi`/`e`/`i`/`oo`/`inf`/`infty`,
is not shadowed by a user function, and is bound in the variable table, then
evaluating the bare input `name` returns exactly the resolution (against the
bindings current at read time) and simplification of the stored body, and the
session is left unchanged apart from symbol-cache interning.  (The original
claim, stated for *every* successful assignment, fails for the alias names
`oo`/`inf`/`infty`, which assign successfully but are replaced by constants
when read back — see the counterexample.) -/
theorem c2_assign_read_reactive (st : CasState) (name : String) (v : Expr)
    (h1 : isValidIdent name = true) (h2 : name ∉ CONSTANT_SUB_NAMES)
    (h3 : st.funcs.lookup name = none) (h4 : (st.vars.lookup name).isSome = true)
    (h5 : (resolveVariable st.vars
            (buildLocalCache st.vars st.funcs st.symbolsCache [name]) name []).1
          = .ok v)
    (h6 : Expr.isMat v = false) (h7 : Expr.isMat (Expr.simplifyE v) = false) :
    casEvaluate st (.plain name)
      = (makeResult (Expr.simplifyE v) "value" false none none,
         { st with symbolsCache :=
             buildLocalCache st.vars st.funcs st.symbolsCache [name] }) := by
  unfold casEvaluate
  rw [evalInner_plain_ident st name h1]
  rw [evalPlain_ident st name h1 h2 h3 h4]
  have hc := resolveVariable_cache st.vars
      (buildLocalCache st.vars st.funcs st.symbolsCache [name]) name [] h4
  rcases hrv : resolveVariable st.vars
      (buildLocalCache st.vars st.funcs st.symbolsCache [name]) name []
    with ⟨er, c2⟩
  rw [hrv] at h5 hc
  dsimp only at h5 hc
  subst hc
  cases er with
  | error m => exact absurd h5 (by simp)
  | ok w =>
      have hv : w = v := by
        injection h5
      subst hv
      dsimp only
      rw [h6, h7]
      rfl

/-- C2 (counterexample to the original claim).  `oo = 5` is a successful
assignment (`ok:true`, type `assignment`) that stores the binding
`oo ↦ 5`, whose resolution and simplification at read time is the integer
`5`; yet a later evaluation of the bare input `oo` renders `∞`: the parser
substitutes the constant `oo ↦ ∞` before resolution ever sees the binding,
so the read does not equal the resolution of the stored body. -/
theorem c2_counterexample :
    (casEvaluate initState (.assignLike "oo" "5")).1.ok = true ∧
    (casEvaluate initState (.assignLike "oo" "5")).1.rtype = some "assignment" ∧
    (casEvaluate initState (.assignLike "oo" "5")).2.vars.lookup "oo"
      = some ⟨.intE 5, []⟩ ∧
    (resolveVariable (casEvaluate initState (.assignLike "oo" "5")).2.vars
        (casEvaluate initState (.assignLike "oo" "5")).2.symbolsCache "oo" []).1
      = .ok (.intE 5) ∧
    Expr.plainE (Expr.simplifyE (.intE 5)) = "5" ∧
    (casEvaluate (casEvaluate initState (.assignLike "oo" "5")).2
        (.plain "oo")).1.plain = some "∞" :=
  ⟨rfl, rfl, rfl, rfl, rfl, rfl⟩

/-- Witness for the amended C2 theorem: after `a = 2`, `b = a + 3`, and the
redefinition `a = 5`, reading `b` yields `8` — the stored body `a + 3`
re-resolved through the binding of `a` current at read time. -/
theorem c2_assign_read_reactive_witness :
    (casEvaluate
        ((casEvaluate
            ((casEvaluate
                ((casEvaluate initState (.assignLike "a" "2")).2)
                (.assignLike "b" "a + 3")).2)
            (.assignLike "a" "5")).2)
        (.plain "b")).1
      = makeResult (Expr.simplifyE (.add (.intE 5) (.intE 3))) "value" false
          none none := by
  have h := c2_assign_read_reactive
    ((casEvaluate
        ((casEvaluate
            ((casEvaluate initState (.assignLike "a" "2")).2)
            (.assignLike "b" "a + 3")).2)
        (.assignLike "a" "5")).2)
    "b" (.add (.intE 5) (.intE 3)) (by decide) (by decide) (by rfl) (by rfl)
    (by rfl) (by rfl) (by rfl)
  rw [h]

/-! ### C3: circular dependencies -/

/-- A list of at least two variable names forms a dependency cycle in
`vars`: each is bound, and the defined-variable dependencies of its stored
body are exactly the next name (cyclically). -/
def isCycle (vars : VarTab) (names : List String) : Bool :=
  (List.range names.length).all (fun i =>
    match vars.lookup (names.getD i "") with
    | none => false
    | some entry =>
        (freeNames entry.expr).filter (fun sn => (vars.lookup sn).isSome)
          == [names.getD ((i + 1) % names.length) ""])

theorem isCycle_spec {vars : VarTab} {names : List String}
    (h : isCycle vars names = true) (i : Nat) (hi : i < names.length) :
    ∃ entry, vars.lookup (names.getD i "") = some entry ∧
      (freeNames entry.expr).filter (fun sn => (vars.lookup sn).isSome)
        = [names.getD ((i + 1) % names.length) ""] := by
  unfold isCycle at h
  rw [List.all_eq_true] at h
  have h2 := h i (List.mem_range.mpr hi)
  rcases hlk : vars.lookup (names.getD i "") with _ | entry
  · rw [hlk] at h2
    exact absurd h2 (by simp)
  · rw [hlk] at h2
    exact ⟨entry, rfl, eq_of_beq h2⟩

theorem mem_getD {names : List String} {m : String} (hm : m ∈ names) :
    ∃ j, j < names.length ∧ names.getD j "" = m := by
  obtain ⟨j, hj, hget⟩ := List.mem_iff_getElem.mp hm
  exact ⟨j, hj, by rw [List.getD_eq_getElem _ _ hj]; exact hget⟩

theorem cycle_index_ne {names : List String} (hnd : names.Nodup)
    (j t u : Nat) (ht : t < names.length) (hu : u < names.length)
    (hne : t ≠ u) :
    names.getD ((j + t) % names.length) ""
      ≠ names.getD ((j + u) % names.length) "" := by
  have hk : 0 < names.length := by omega
  intro he
  have h1 : (j + t) % names.length < names.length := Nat.mod_lt _ hk
  have h2 : (j + u) % names.length < names.length := Nat.mod_lt _ hk
  rw [List.getD_eq_getElem _ _ h1, List.getD_eq_getElem _ _ h2] at he
  have hidx : (j + t) % names.length = (j + u) % names.length :=
    (List.Nodup.getElem_inj_iff hnd).mp he
  have hmeq : t ≡ u [MOD names.length] :=
    Nat.ModEq.add_left_cancel' j
      (show j + t ≡ j + u [MOD names.length] from hidx)
  have heq : t = u := by
    have h3 : t % names.length = u % names.length := hmeq
    rw [Nat.mod_eq_of_lt ht, Nat.mod_eq_of_lt hu] at h3
    exact h3
  exact hne heq

/-- The walk of `_resolve_variable` along a dependency cycle: starting `t`
steps into the cycle with the entry point already in the visited set and
the remaining cycle members not yet visited, resolution fails with the
circular-dependency diagnostic naming the entry point. -/
theorem cycle_walk {vars : VarTab} {names : List String}
    (hnd : names.Nodup) (hk2 : 2 ≤ names.length)
    (hcyc : isCycle vars names = true) {j : Nat} (hj : j < names.length) :
    ∀ r t, t + r = names.length → ∀ fuel, 2 * r + 1 ≤ fuel →
    ∀ visited cache,
      names.getD j "" ∈ visited →
      (∀ u, t ≤ u → u < names.length →
        names.getD ((j + u) % names.length) "" ∉ visited) →
      resolveVarRun vars fuel (.inl (names.getD ((j + t) % names.length) ""))
          visited cache
        = (.error (circularMsg (names.getD j "")), cache) := by
  intro r
  induction r with
  | zero =>
      intro t ht fuel hfuel visited cache hjv _
      have hteq : (j + t) % names.length = j := by
        have ht2 : t = names.length := by omega
        subst ht2
        rw [Nat.add_mod_right]
        exact Nat.mod_eq_of_lt hj
      rw [hteq]
      obtain ⟨f, rfl⟩ : ∃ f, fuel = f + 1 := ⟨fuel - 1, by omega⟩
      rw [resolveVarRun]
      rw [if_pos hjv]
  | succ r ih =>
      intro t ht fuel hfuel visited cache hjv hnv
      have htk : t < names.length := by omega
      have hmodlt : (j + t) % names.length < names.length :=
        Nat.mod_lt _ (by omega)
      have hnotv : names.getD ((j + t) % names.length) "" ∉ visited :=
        hnv t le_rfl htk
      obtain ⟨entry, hlk, hdeps⟩ := isCycle_spec hcyc _ hmodlt
      obtain ⟨f, rfl⟩ : ∃ f, fuel = f + 1 + 1 := ⟨fuel - 2, by omega⟩
      rw [resolveVarRun]
      rw [if_neg hnotv]
      rw [hlk]
      dsimp only
      rw [hdeps]
      have hidx : ((j + t) % names.length + 1) % names.length
          = (j + (t + 1)) % names.length := by
        conv_rhs => rw [show j + (t + 1) = (j + t) + 1 from by omega]
        conv_rhs => rw [Nat.add_mod (j + t) 1]
        rw [Nat.mod_eq_of_lt (show 1 < names.length from by omega)]
      rw [hidx]
      rw [resolveVarRun]
      have hih := ih (t + 1) (by omega) f (by omega)
        (names.getD ((j + t) % names.length) "" :: visited) cache
        (List.mem_cons_of_mem _ hjv)
        (fun u hu1 hu2 => by
          simp only [List.mem_cons, not_or]
          refine ⟨?_, hnv u (by omega) hu2⟩
          exact cycle_index_ne hnd j u t hu2 htk (by omega))
      rw [hih]

/-- Cycle detection at the `_resolve_variable` entry point: resolving any
member of a dependency cycle with a fresh visited set fails with the
circular-dependency diagnostic naming that member, leaving the symbol cache
untouched. -/
theorem cycle_resolveVariable {vars : VarTab} {names : List String}
    (hnd : names.Nodup) (hk2 : 2 ≤ names.length)
    (hcyc : isCycle vars names = true)
    (hfuel : 2 * names.length + 3 ≤ RECURSION_LIMIT)
    {m : String} (hm : m ∈ names) (cache : List String) :
    resolveVariable vars cache m [] = (.error (circularMsg m), cache) := by
  obtain ⟨j, hj, hgj⟩ := mem_getD hm
  subst hgj
  unfold resolveVariable
  rw [show (RECURSION_LIMIT) = 998 + 1 + 1 from rfl]
  rw [resolveVarRun]
  rw [if_neg (List.not_mem_nil _)]
  obtain ⟨entry, hlk, hdeps⟩ := isCycle_spec hcyc j hj
  rw [hlk]
  dsimp only
  rw [hdeps]
  rw [resolveVarRun]
  have hwalk := cycle_walk hnd hk2 hcyc hj (names.length - 1) 1 (by omega)
      998 (by
        have hRL : RECURSION_LIMIT = 1000 := rfl
        omega)
      [names.getD j ""] cache (List.mem_cons_self _ _)
      (fun u hu1 hu2 => by
        simp only [List.mem_singleton]
        have hjz : names.getD j "" = names.getD ((j + 0) % names.length) "" := by
          rw [Nat.add_zero, Nat.mod_eq_of_lt hj]
        rw [hjz]
        exact cycle_index_ne hnd j u 0 hu2 (by omega) (by omega))
  rw [hwalk]

/-- C3.  For any two or more distinct variable bindings whose
defined-variable dependency edges form a cycle, evaluating the bare input
naming any member of the cycle returns an `ok:false` result whose error
message is the circular-dependency diagnostic naming that member
(`Circular dependency detected involving 'X'`). -/
theorem c3_cycle_member_read (st : CasState) (names : List String) (m : String)
    (hnd : names.Nodup) (hk2 : 2 ≤ names.length)
    (hcyc : isCycle st.vars names = true)
    (hfuel : 2 * names.length + 3 ≤ RECURSION_LIMIT)
    (hm : m ∈ names)
    (h1 : isValidIdent m = true) (h2 : m ∉ CONSTANT_SUB_NAMES)
    (h3 : st.funcs.lookup m = none) :
    (casEvaluate st (.plain m)).1.ok = false ∧
    (casEvaluate st (.plain m)).1.error = some (circularMsg m) := by
  have h4 : (st.vars.lookup m).isSome = true := by
    obtain ⟨j, hj, hgj⟩ := mem_getD hm
    obtain ⟨entry, hlk, _⟩ := isCycle_spec hcyc j hj
    rw [← hgj, hlk]
    rfl
  unfold casEvaluate
  rw [evalInner_plain_ident st m h1]
  rw [evalPlain_ident st m h1 h2 h3 h4]
  rw [cycle_resolveVariable hnd hk2 hcyc hfuel hm _]
  exact ⟨rfl, rfl⟩

/-- Witness for the C3 theorem: after `p = q + 1` and `q = p + 1`, the
bindings `p`/`q` form a two-member cycle, and reading `p` fails with the
diagnostic naming `p`. -/
theorem c3_cycle_member_read_witness :
    (casEvaluate
        ((casEvaluate
            ((casEvaluate initState (.assignLike "p" "q + 1")).2)
            (.assignLike "q" "p + 1")).2)
        (.plain "p")).1.ok = false ∧
    (casEvaluate
        ((casEvaluate
            ((casEvaluate initState (.assignLike "p" "q + 1")).2)
            (.assignLike "q" "p + 1")).2)
        (.plain "p")).1.error = some (circularMsg "p") :=
  c3_cycle_member_read
    ((casEvaluate
        ((casEvaluate initState (.assignLike "p" "q + 1")).2)
        (.assignLike "q" "p + 1")).2)
    ["p", "q"] "p" (by decide) (by decide) (by decide) (by decide)
    (by decide) (by decide) (by decide) (by rfl)

/-! ### C4: the definite-integral variable -/

/-- C4 (amended).  `_handle_latex_int` strips a trailing `d<var>` token from
the body, but the captured variable name is *discarded*: the handler depends
only on the stripped residue of the body, and the integration variable is
then inferred from the resolved residue alone — `x` if free, else the first
free symbol, else a fresh dummy (`chooseIntVar`).  (The original claim, that
a stripped `<var>` is used as the integration variable, is refuted by the
counterexample.) -/
theorem c4_dvar_discarded (st : CasState) (lo hi b1 b2 : String)
    (h : (stripDVar b1).1 = (stripDVar b2).1) :
    handleLatexInt st lo hi b1 = handleLatexInt st lo hi b2 := by
  unfold handleLatexInt
  rw [h]

/-- C4 (counterexample to the original claim).  On the input
`\int_\x7b0\x7d^\x7b1\x7d x+y dy` the handler strips the trailing `dy`
(capturing `y`), yet the result integrates with respect to `x` — the
variable inferred from the free symbols of the residue — not the stripped
`y`. -/
theorem c4_counterexample :
    (stripDVar "x+y dy").2 = some "y" ∧
    (casEvaluate initState (.intDef "0" "1" "x+y dy")).1.plain
      = some "Integral(x + y, (x, 0, 1))" ∧
    (casEvaluate initState (.intDef "0" "1" "x+y dy")).1.latex
      = some "\\int_\x7b0\x7d^\x7b1\x7d x + y\\, dx" :=
  ⟨rfl, rfl, rfl⟩

/-- Witness for the amended C4 theorem: the bodies `x+y dy` and `x+y dw`
strip to the same residue, so the handler treats them identically. -/
theorem c4_dvar_discarded_witness :
    (stripDVar "x+y dy").1 = (stripDVar "x+y dw").1 ∧
    handleLatexInt initState "0" "1" "x+y dy"
      = handleLatexInt initState "0" "1" "x+y dw" :=
  ⟨rfl, c4_dvar_discarded initState "0" "1" "x+y dy" "x+y dw" (by rfl)⟩

/-! ### C5: matrix assignment snapshots -/

/-- C5 (amended).  Matrix assignment is the exception to the no-snapshot
rule: `_handle_matrix_assignment` resolves the matrix entries against the
bindings current at *assignment* time and stores that resolved matrix with
an empty dependency set, so a later read returns the stored snapshot and a
redefinition of a variable referenced by an entry is not reflected.  (The
original claim, that no binding is ever snapshotted, is refuted by the
counterexample.) -/
theorem c5_matrix_assign_stores_resolved (st : CasState) (name tex : String)
    (m m2 : Expr) (c c2 : List String)
    (hp : parseMatrixLatex st.vars st.funcs st.symbolsCache tex = (.ok m, c))
    (hr : resolveMatEntries st.vars st.funcs c m = (.ok m2, c2)) :
    handleMatrixAssignment st name tex
      = (.ok (makeMatrixResult m2 "assignment" (some name)),
         { st with vars := setEntry st.vars name ⟨m2, []⟩,
                   symbolsCache := c2 }) ∧
    (setEntry st.vars name ⟨m2, []⟩).lookup name = some ⟨m2, []⟩ := by
  constructor
  · unfold handleMatrixAssignment
    rw [hp]
    dsimp only
    rw [hr]
  · exact setEntry_lookup_self st.vars name ⟨m2, []⟩

/-- C5 (counterexample to the original claim).  After `a = 2`, assigning
`M = \begin\x7bpmatrix\x7d a & 1 \\\\ 2 & 3 \end\x7bpmatrix\x7d`
stores the resolved matrix `(2, 1, 2, 3)` with an empty dependency set;
after redefining `a = 7` (whose read then yields `7`), reading `M` still
yields the snapshot `(2, 1, 2, 3)` — the redefinition is not reflected. -/
theorem c5_counterexample :
    ((casEvaluate ((casEvaluate initState (.assignLike "a" "2")).2)
        (.assignLike "M"
          "\\begin\x7bpmatrix\x7d a & 1 \\\\ 2 & 3 \\end\x7bpmatrix\x7d")).1.ok
      = true) ∧
    ((casEvaluate ((casEvaluate initState (.assignLike "a" "2")).2)
        (.assignLike "M"
          "\\begin\x7bpmatrix\x7d a & 1 \\\\ 2 & 3 \\end\x7bpmatrix\x7d")).2.vars.lookup
        "M"
      = some ⟨.matE 2 2 [.intE 2, .intE 1, .intE 2, .intE 3], []⟩) ∧
    ((casEvaluate ((casEvaluate ((casEvaluate ((casEvaluate initState
        (.assignLike "a" "2")).2)
        (.assignLike "M"
          "\\begin\x7bpmatrix\x7d a & 1 \\\\ 2 & 3 \\end\x7bpmatrix\x7d")).2)
        (.assignLike "a" "7")).2) (.plain "a")).1.plain = some "7") ∧
    ((casEvaluate ((casEvaluate ((casEvaluate ((casEvaluate initState
        (.assignLike "a" "2")).2)
        (.assignLike "M"
          "\\begin\x7bpmatrix\x7d a & 1 \\\\ 2 & 3 \\end\x7bpmatrix\x7d")).2)
        (.assignLike "a" "7")).2) (.plain "M")).1.plain
      = some "mat[2](2, 1, 2, 3)") :=
  ⟨rfl, rfl, rfl, rfl⟩

/-- Witness for the amended C5 theorem, after `a = 2`: the matrix literal
`(a, 1; 2, 3)` parses with `a` symbolic, resolves to the snapshot
`(2, 1, 2, 3)`, and the stored binding is that snapshot with no
dependencies. -/
theorem c5_matrix_assign_stores_resolved_witness :
    handleMatrixAssignment ((casEvaluate initState (.assignLike "a" "2")).2)
        "M" "\\begin\x7bpmatrix\x7d a & 1 \\\\ 2 & 3 \\end\x7bpmatrix\x7d"
      = (.ok (makeMatrixResult
            (.matE 2 2 [.intE 2, .intE 1, .intE 2, .intE 3]) "assignment"
            (some "M")),
         { (casEvaluate initState (.assignLike "a" "2")).2 with
             vars := setEntry
               ((casEvaluate initState (.assignLike "a" "2")).2.vars) "M"
               ⟨.matE 2 2 [.intE 2, .intE 1, .intE 2, .intE 3], []⟩,
             symbolsCache := ["a"] }) ∧
    (setEntry ((casEvaluate initState (.assignLike "a" "2")).2.vars) "M"
        ⟨.matE 2 2 [.intE 2, .intE 1, .intE 2, .intE 3], []⟩).lookup "M"
      = some ⟨.matE 2 2 [.intE 2, .intE 1, .intE 2, .intE 3], []⟩ :=
  c5_matrix_assign_stores_resolved
    ((casEvaluate initState (.assignLike "a" "2")).2) "M"
    "\\begin\x7bpmatrix\x7d a & 1 \\\\ 2 & 3 \\end\x7bpmatrix\x7d"
    (.matE 2 2 [.sym "a", .intE 1, .intE 2, .intE 3])
    (.matE 2 2 [.intE 2, .intE 1, .intE 2, .intE 3])
    ["a"] ["a"] (by rfl) (by rfl)

/-! ### C9: reserved constant names never assign -/

theorem evalPlain_spec (st : CasState) (tex : String) :
    (evalPlain st tex).2.vars = st.vars ∧
    (evalPlain st tex).2.funcs = st.funcs ∧
    ∀ r, (evalPlain st tex).1 = .ok r → r.rtype = some "value" := by
  unfold evalPlain
  rcases hp : parseSafe st.vars st.funcs st.symbolsCache tex with ⟨er, c⟩
  cases er with
  | error m => exact ⟨by trivial, by trivial, fun r hr => Except.noConfusion hr⟩
  | ok e =>
      dsimp only
      rcases hre : resolveExpr st.vars st.funcs RECURSION_LIMIT c e []
        with ⟨er2, c2⟩
      cases er2 with
      | error m => exact ⟨by trivial, by trivial, fun r hr => Except.noConfusion hr⟩
      | ok resolved =>
          dsimp only
          by_cases hm : Expr.isMat resolved
          · simp only [hm, if_true]
            refine ⟨by trivial, by trivial, fun r hr => ?_⟩
            have h2 : makeMatrixResult resolved "value" none = r := by
              injection hr
            rw [← h2]
            exact makeMatrixResult_rtype resolved "value" none
          · simp only [hm, if_false]
            by_cases hm2 : Expr.isMat (Expr.simplifyE resolved)
            · simp only [hm2, if_true]
              refine ⟨by trivial, by trivial, fun r hr => ?_⟩
              have h2 : makeMatrixResult (Expr.simplifyE resolved) "value" none
                  = r := by
                injection hr
              rw [← h2]
              exact makeMatrixResult_rtype (Expr.simplifyE resolved) "value" none
            · simp only [hm2, if_false]
              refine ⟨by trivial, by trivial, fun r hr => ?_⟩
              have h2 : makeResult (Expr.simplifyE resolved) "value" false
                  none none = r := by
                injection hr
              rw [← h2]
              exact makeResult_rtype (Expr.simplifyE resolved) "value" false
                none none

theorem tryEquation_spec (st : CasState) (lhsStr rhsStr : String) :
    (tryEquation st lhsStr rhsStr).2.vars = st.vars ∧
    (tryEquation st lhsStr rhsStr).2.funcs = st.funcs ∧
    ∀ r, (tryEquation st lhsStr rhsStr).1 = some r →
      r.rtype = some "equation" := by
  unfold tryEquation
  rcases hp : parseSafe st.vars st.funcs st.symbolsCache
      (preprocessLatex lhsStr) with ⟨er, c⟩
  cases er with
  | error m => exact ⟨by trivial, by trivial, fun r hr => Option.noConfusion hr⟩
  | ok lhs =>
      dsimp only
      rcases hp2 : parseSafe st.vars st.funcs c (preprocessLatex rhsStr)
        with ⟨er2, c2⟩
      cases er2 with
      | error m => exact ⟨by trivial, by trivial, fun r hr => Option.noConfusion hr⟩
      | ok rhs =>
          dsimp only
          rcases hre : resolveExpr st.vars st.funcs RECURSION_LIMIT c2
              (Expr.mkEq lhs rhs) [] with ⟨er3, c3⟩
          cases er3 with
          | error m => exact ⟨by trivial, by trivial, fun r hr => Option.noConfusion hr⟩
          | ok eqRes =>
              refine ⟨by trivial, by trivial, fun r hr => ?_⟩
              have h2 : makeResult (Expr.simplifyE eqRes) "equation" false
                  none none = r := by
                injection hr
              rw [← h2]
              exact makeResult_rtype (Expr.simplifyE eqRes) "equation" false
                none none

theorem evalEquationOrPlain_spec (st : CasState) (l r full : String) :
    (evalEquationOrPlain st l r full).2.vars = st.vars ∧
    (evalEquationOrPlain st l r full).2.funcs = st.funcs ∧
    ∀ res, (evalEquationOrPlain st l r full).1 = .ok res →
      (res.rtype = some "equation" ∨ res.rtype = some "value") := by
  unfold evalEquationOrPlain
  by_cases hc : !(trimChars l.data).isEmpty && !(trimChars r.data).isEmpty
  · simp only [hc, if_true]
    obtain ⟨hv, hf, hok⟩ := tryEquation_spec st l r
    rcases he : tryEquation st l r with ⟨o, st1⟩
    rw [he] at hv hf hok
    cases o with
    | some res0 =>
        refine ⟨hv, hf, fun res hr => ?_⟩
        have h2 : res0 = res := by
          injection hr
        exact Or.inl (by rw [← h2]; exact hok res0 rfl)
    | none =>
        obtain ⟨hv2, hf2, hok2⟩ := evalPlain_spec st1 full
        exact ⟨hv2.trans hv, hf2.trans hf,
          fun res hr => Or.inr (hok2 res hr)⟩
  · simp only [hc, if_false]
    obtain ⟨hv2, hf2, hok2⟩ := evalPlain_spec st full
    exact ⟨hv2, hf2, fun res hr => Or.inr (hok2 res hr)⟩

/-- C9.  An input `name = body` whose left-hand name is one of the reserved
constant names `e`, `i`, `pi`, `E`, `I` never takes the assignment path:
it is processed as an equation (falling back to plain evaluation of the
full text), the variable and function tables are left unchanged, and the
result type is never `assignment`. -/
theorem c9_reserved_name_no_assignment (st : CasState) (name body : String)
    (h : RESERVED_CONST_NAMES.contains name = true) :
    evalInner st (.assignLike name body)
      = evalEquationOrPlain st name body (name ++ " = " ++ body) ∧
    (casEvaluate st (.assignLike name body)).2.vars = st.vars ∧
    (casEvaluate st (.assignLike name body)).2.funcs = st.funcs ∧
    (casEvaluate st (.assignLike name body)).1.rtype ≠ some "assignment" := by
  have hinner : evalInner st (.assignLike name body)
      = evalEquationOrPlain st name body (name ++ " = " ++ body) := by
    simp only [evalInner]
    rw [h]
    simp
  refine ⟨hinner, ?_⟩
  obtain ⟨hv, hf, hok⟩ :=
    evalEquationOrPlain_spec st name body (name ++ " = " ++ body)
  unfold casEvaluate
  rw [hinner]
  rcases he : evalEquationOrPlain st name body (name ++ " = " ++ body)
    with ⟨er, st1⟩
  rw [he] at hv hf hok
  cases er with
  | error msg =>
      refine ⟨hv, hf, ?_⟩
      intro hcon
      exact Option.noConfusion hcon
  | ok res =>
      refine ⟨hv, hf, ?_⟩
      intro hcon
      rcases hok res rfl with h1 | h1 <;> rw [h1] at hcon <;>
        exact absurd (by injection hcon) (by decide)

/-- Witness for the C9 theorem at `e = 5`: the input is processed as an
equation, the tables stay empty, and the result type is not
`assignment`. -/
theorem c9_reserved_name_no_assignment_witness :
    evalInner initState (.assignLike "e" "5")
      = evalEquationOrPlain initState "e" "5" ("e" ++ " = " ++ "5") ∧
    (casEvaluate initState (.assignLike "e" "5")).2.vars = initState.vars ∧
    (casEvaluate initState (.assignLike "e" "5")).2.funcs = initState.funcs ∧
    (casEvaluate initState (.assignLike "e" "5")).1.rtype
      ≠ some "assignment" :=
  c9_reserved_name_no_assignment initState "e" "5" (by decide)

/-! ### C10: assignment is not atomic on post-store failure -/

/-- C10.  Variable assignment is not atomic on error: when the parse and the
pre-store dependency check of `name = body` succeed but resolving `name`
*after* the binding has been stored fails (the stored binding completes a
dependency cycle), the entry point returns the failure as an `ok:false`
record while the new binding for `name` remains in the variable table. -/
theorem c10_assignment_not_atomic (st : CasState) (name body : String)
    (expr : Expr) (c c1 c2 : List String) (msg : String)
    (hres : RESERVED_CONST_NAMES.contains name = false)
    (hmat : isMatrixExpr (preprocessLatex body) = false)
    (hp : parseSafe st.vars st.funcs st.symbolsCache body = (.ok expr, c))
    (hpre : precheckDeps st.vars c name (freeNames expr) = (.ok (), c1))
    (hsolve : resolveVariable (setEntry st.vars name ⟨expr, freeNames expr⟩)
        c1 name [] = (.error msg, c2)) :
    (casEvaluate st (.assignLike name body)).1 = errResult msg ∧
    ((casEvaluate st (.assignLike name body)).2.vars).lookup name
      = some ⟨expr, freeNames expr⟩ := by
  have hinner : evalInner st (.assignLike name body)
      = handleVarAssignment st name body := by
    simp only [evalInner]
    rw [hres]
    simp [hmat]
  have hha : handleVarAssignment st name body
      = (.error msg,
         { st with vars := setEntry st.vars name ⟨expr, freeNames expr⟩,
                   symbolsCache := c2 }) := by
    unfold handleVarAssignment
    rw [hp]
    dsimp only
    rw [hpre]
    dsimp only
    rw [hsolve]
  unfold casEvaluate
  rw [hinner, hha]
  exact ⟨rfl, setEntry_lookup_self st.vars name ⟨expr, freeNames expr⟩⟩

/-- Witness for the C10 theorem: after `p = q + 1`, assigning `q = p + 1`
passes the pre-store check, stores the binding, fails the post-store
resolution with the circular-dependency diagnostic for `q`, and leaves the
binding `q ↦ p + 1` stored. -/
theorem c10_assignment_not_atomic_witness :
    (casEvaluate ((casEvaluate initState (.assignLike "p" "q + 1")).2)
        (.assignLike "q" "p + 1")).1 = errResult (circularMsg "q") ∧
    ((casEvaluate ((casEvaluate initState (.assignLike "p" "q + 1")).2)
        (.assignLike "q" "p + 1")).2.vars).lookup "q"
      = some ⟨.add (.sym "p") (.intE 1),
              freeNames (.add (.sym "p") (.intE 1))⟩ :=
  c10_assignment_not_atomic
    ((casEvaluate initState (.assignLike "p" "q + 1")).2) "q" "p + 1"
    (.add (.sym "p") (.intE 1)) ["q", "p"] ["q", "p"] ["q", "p"]
    (circularMsg "q") (by decide) (by rfl) (by rfl) (by rfl) (by rfl)

/-! ### C7: matrix cells, rectangularity, and the jagged check -/

theorem checkRectFrom_ok {ncols : Nat} :
    ∀ (rows : List (List Expr)) (i : Nat),
      checkRectFrom ncols i rows = .ok () →
      ∀ row ∈ rows, row.length = ncols := by
  intro rows
  induction rows with
  | nil => intro _ _ row hrow; exact absurd hrow (List.not_mem_nil _)
  | cons r rest ih =>
      intro i h row hrow
      unfold checkRectFrom at h
      by_cases hlen : r.length ≠ ncols
      · rw [if_pos hlen] at h
        exact Except.noConfusion h
      · rw [if_neg hlen] at h
        push_neg at hlen
        rcases List.mem_cons.mp hrow with h1 | h1
        · rw [h1]; exact hlen
        · exact ih (i + 1) h row h1

theorem flatten_length_const {ncols : Nat} :
    ∀ (rows : List (List Expr)), (∀ row ∈ rows, row.length = ncols) →
      rows.flatten.length = rows.length * ncols := by
  intro rows
  induction rows with
  | nil => intro _; simp
  | cons r rest ih =>
      intro h
      simp only [List.flatten_cons, List.length_append, List.length_cons]
      rw [h r (List.mem_cons_self _ _),
        ih (fun row hrow => h row (List.mem_cons_of_mem _ hrow))]
      ring

/-- C7 (amended).  Every successfully parsed matrix is rectangular and
non-empty: the result is `matE r c es` built from a non-empty row list in
which every row has the width of the first row, with `r · c` entries in
row-major order.  The jagged check itself only runs after *all* cells have
parsed — a cell-level parse failure preempts the `Jagged matrix`
diagnostic, which is why the original claim's error clause fails (see the
counterexample); empty cells do parse to zero inside `parseCells`. -/
theorem c7_parsed_matrix_rect (vars : VarTab) (fns : FnTab)
    (cache : List String) (tex : String) (m : Expr) (c : List String)
    (h : parseMatrixLatex vars fns cache tex = (.ok m, c)) :
    ∃ (rows : List (List Expr)),
      m = .matE rows.length (rows.headD []).length rows.flatten ∧
      rows ≠ [] ∧
      (∀ row ∈ rows, row.length = (rows.headD []).length) ∧
      rows.flatten.length = rows.length * (rows.headD []).length := by
  unfold parseMatrixLatex at h
  rcases henv : matchMatrixEnv tex with _ | content
  · rw [henv] at h
    simp at h
  · rw [henv] at h
    dsimp only at h
    rcases hrows : parseMatrixRows vars fns cache
        ((splitOnL ['\\', '\\'] content.data).map String.mk) with ⟨er, c1⟩
    rw [hrows] at h
    cases er with
    | error msg => simp at h
    | ok rows =>
        dsimp only at h
        by_cases hemp : rows.isEmpty
        · rw [if_pos hemp] at h
          simp at h
        · rw [if_neg hemp] at h
          rcases hchk : checkRectFrom (rows.headD []).length 0 rows
            with msg | u
          · rw [hchk] at h
            simp at h
          · rw [hchk] at h
            have hm : Expr.matE rows.length (rows.headD []).length
                rows.flatten = m := by
              have := congrArg Prod.fst h
              simpa using this
            have hrect := checkRectFrom_ok rows 0 (by
              cases u
              exact hchk)
            refine ⟨rows, hm.symm, ?_, hrect, flatten_length_const rows hrect⟩
            intro hnil
            rw [hnil] at hemp
            exact hemp rfl

/-- C7 (counterexample to the original claim's error clause).  The matrix
input `\begin\x7bpmatrix\x7d (&1 \\ 2 \end\x7bpmatrix\x7d` has two
non-empty rows of different widths (2 cells and 1 cell), yet the evaluation
fails with the cell-level parse error `could not parse input`, not a
`Jagged matrix` diagnostic: the cells are parsed before the rectangularity
check, and the unparsable cell `(` preempts it.  A jagged input with
parsable cells does produce the diagnostic. -/
theorem c7_counterexample :
    (splitOnL ['&'] (trimChars " (&1 ".data)).length = 2 ∧
    (splitOnL ['&'] (trimChars " 2 ".data)).length = 1 ∧
    (casEvaluate initState
        (.matrixLit "\\begin\x7bpmatrix\x7d (&1 \\\\ 2 \\end\x7bpmatrix\x7d")).1.error
      = some "could not parse input" ∧
    (casEvaluate initState
        (.matrixLit "\\begin\x7bpmatrix\x7d 1 \\\\ 2 & 3 \\end\x7bpmatrix\x7d")).1.error
      = some (jaggedMsg 1 2 1) :=
  ⟨rfl, rfl, rfl, rfl⟩

/-- Witness for the amended C7 theorem on
`\begin\x7bpmatrix\x7d 1 & 2 \\ 3 & 4 \end\x7bpmatrix\x7d`: the parsed
matrix is rectangular and non-empty. -/
theorem c7_parsed_matrix_rect_witness :
    ∃ (rows : List (List Expr)),
      Expr.matE 2 2 [.intE 1, .intE 2, .intE 3, .intE 4]
        = .matE rows.length (rows.headD []).length rows.flatten ∧
      rows ≠ [] ∧
      (∀ row ∈ rows, row.length = (rows.headD []).length) ∧
      rows.flatten.length = rows.length * (rows.headD []).length :=
  c7_parsed_matrix_rect [] [] []
    "\\begin\x7bpmatrix\x7d 1 & 2 \\\\ 3 & 4 \\end\x7bpmatrix\x7d"
    (.matE 2 2 [.intE 1, .intE 2, .intE 3, .intE 4]) [] (by rfl)

end CasEngine
